import Mathlib

/-!
Shallow embedding of the maze-game core (maze generation, geometry mapping,
collision, pursuer AI, particle system) and proofs of the specified
properties.  Machine floats of the original C code are modelled by exact
rationals; the C `rand()` stream is modelled by an arbitrary function
`rng : ℕ → ℕ` consumed with an explicit counter, and the transcendental
library calls `sqrtf` / `cosf` / `sinf` are modelled by arbitrary function
parameters since no verified property depends on their values.
-/

set_option linter.unusedVariables false

namespace MazeGame

/-! ## Wall-direction bit flags (maze.h) -/

def MAZE_NORTH : ℕ := 1
def MAZE_EAST : ℕ := 2
def MAZE_SOUTH : ℕ := 4
def MAZE_WEST : ℕ := 8
def MAZE_ALL : ℕ := 15

/-- C cast `(int)q`: truncation toward zero. -/
def truncInt (q : ℚ) : ℤ := if 0 ≤ q then ⌊q⌋ else ⌈q⌉

/-- raylib `Rectangle` (used in the XZ plane: `y` is the Z origin). -/
structure Rectangle where
  x : ℚ
  y : ℚ
  width : ℚ
  height : ℚ
deriving DecidableEq

/-- `WallRect` of maze.h: a collision rectangle plus orientation flag. -/
structure WallRect where
  rect : Rectangle
  isVertical : Bool
deriving DecidableEq

/-- The `Maze` struct of maze.h.  `cells` is the row-major wall-mask buffer;
`startPos`/`exitPos` are stored as integer cell coordinates (the C code keeps
them in a float `Vector2` but only ever reads them back as ints). -/
structure Maze where
  width : ℤ
  height : ℤ
  cells : List ℕ
  cellSize : ℚ
  startPos : ℤ × ℤ
  exitPos : ℤ × ℤ
deriving DecidableEq

/-- `CellIndex` of maze.c: row-major index, `-1` when out of bounds. -/
def CellIndex (m : Maze) (x y : ℤ) : ℤ :=
  if x < 0 ∨ m.width ≤ x ∨ y < 0 ∨ m.height ≤ y then -1 else y * m.width + x

/-- `Maze_Create` of maze.c.  `none` models the NULL return for invalid
dimensions; heap allocation is assumed to succeed in the model. -/
def Maze_Create (width height : ℤ) (cellSize : ℚ) : Option Maze :=
  if width < 1 ∨ height < 1 ∨ cellSize ≤ 0 then none
  else some
    { width := width
      height := height
      cells := List.replicate (width * height).toNat MAZE_ALL
      cellSize := cellSize
      startPos := (0, 0)
      exitPos := (width - 1, height - 1) }

/-- `Maze_HasWall` of maze.c: out of bounds counts as a wall. -/
def Maze_HasWall (m : Maze) (x y : ℤ) (direction : ℕ) : Bool :=
  if CellIndex m x y < 0 then true
  else decide (m.cells.getD (CellIndex m x y).toNat 0 &&& direction ≠ 0)

/-- `Maze_CellToWorld` of maze.c: world position of the cell center. -/
def Maze_CellToWorld (m : Maze) (cellX cellY : ℤ) : ℚ × ℚ :=
  (((cellX : ℚ) - (m.width : ℚ) * (1/2) + 1/2) * m.cellSize,
   ((cellY : ℚ) - (m.height : ℚ) * (1/2) + 1/2) * m.cellSize)

/-- `Maze_WorldToCell` of maze.c: the C `(int)` cast truncates toward zero. -/
def Maze_WorldToCell (m : Maze) (worldX worldZ : ℚ) : ℤ × ℤ :=
  (truncInt (worldX / m.cellSize + (m.width : ℚ) * (1/2)),
   truncInt (worldZ / m.cellSize + (m.height : ℚ) * (1/2)))

/-- `Maze_IsExit` of maze.c. -/
def Maze_IsExit (m : Maze) (cellX cellY : ℤ) : Bool :=
  decide (cellX = m.exitPos.1 ∧ cellY = m.exitPos.2)

/-! ## Maze generation (maze.c `Maze_Generate` and helpers) -/

/-- Offsets of the canonical `dirs`/`dx`/`dy` arrays of maze.c:
`{MAZE_NORTH, MAZE_EAST, MAZE_SOUTH, MAZE_WEST}` pair with `dx = {0,1,0,-1}`,
`dy = {-1,0,1,0}`. -/
def dirOffset (d : ℕ) : ℤ × ℤ :=
  if d = MAZE_NORTH then (0, -1)
  else if d = MAZE_EAST then (1, 0)
  else if d = MAZE_SOUTH then (0, 1)
  else if d = MAZE_WEST then (-1, 0)
  else (0, 0)

/-- The `oppositeDir` table of maze.c (`{MAZE_SOUTH, MAZE_WEST, MAZE_NORTH,
MAZE_EAST}` indexed by the direction's position in `dirs`). -/
def oppositeDir (d : ℕ) : ℕ :=
  if d = MAZE_NORTH then MAZE_SOUTH
  else if d = MAZE_EAST then MAZE_WEST
  else if d = MAZE_SOUTH then MAZE_NORTH
  else if d = MAZE_WEST then MAZE_EAST
  else 0

/-- One array swap `temp = a[i]; a[i] = a[j]; a[j] = temp`. -/
def listSwap (l : List ℕ) (i j : ℕ) : List ℕ :=
  (l.set i (l.getD j 0)).set j (l.getD i 0)

/-- The Fisher-Yates shuffle of `GetRandomNeighbor`: for `i = 3, 2, 1` swap
index `i` with index `rand() % (i + 1)`.  The C code applies the same swaps
to the parallel `dirs`, `dx`, `dy` arrays, so the direction value determines
its offsets via `dirOffset` throughout. -/
def shuffle3 (r1 r2 r3 : ℕ) : List ℕ :=
  listSwap (listSwap (listSwap [MAZE_NORTH, MAZE_EAST, MAZE_SOUTH, MAZE_WEST] 3 (r1 % 4)) 2 (r2 % 3)) 1 (r3 % 2)

/-- `IsValidUnvisited` of maze.c. -/
def IsValidUnvisited (m : Maze) (x y : ℤ) (visited : List Bool) : Bool :=
  if CellIndex m x y < 0 then false
  else !(visited.getD (CellIndex m x y).toNat false)

/-- `GetRandomNeighbor` of maze.c: shuffle the four directions (consuming
three `rand()` values), then return the first whose neighbor is in-grid and
unvisited (`none` models the `return 0` path). -/
def GetRandomNeighbor (m : Maze) (x y : ℤ) (visited : List Bool) (rng : ℕ → ℕ) (k : ℕ) : Option ℕ :=
  (shuffle3 (rng k) (rng (k+1)) (rng (k+2))).find?
    (fun d => IsValidUnvisited m (x + (dirOffset d).1) (y + (dirOffset d).2) visited)

/-- The mutable state of the `Maze_Generate` DFS loop: the wall-mask buffer,
the `visited` array, the explicit stack (head = top) and the number of
`rand()` values consumed so far. -/
structure GenState where
  cells : List ℕ
  visited : List Bool
  stack : List (ℤ × ℤ)
  k : ℕ
deriving DecidableEq

/-- One iteration of the `while (stackTop > 0)` loop of `Maze_Generate`:
carve to a random unvisited neighbor and push it, or pop. -/
def genStep (m : Maze) (rng : ℕ → ℕ) (s : GenState) : GenState :=
  match s.stack with
  | [] => s
  | (x, y) :: rest =>
    match GetRandomNeighbor m x y s.visited rng s.k with
    | some d =>
      let off := dirOffset d
      let nx := x + off.1
      let ny := y + off.2
      let currIdx := (CellIndex m x y).toNat
      let nextIdx := (CellIndex m nx ny).toNat
      let cells1 := s.cells.set currIdx (s.cells.getD currIdx 0 &&& (255 ^^^ d))
      let cells2 := cells1.set nextIdx (cells1.getD nextIdx 0 &&& (255 ^^^ oppositeDir d))
      { cells := cells2
        visited := s.visited.set nextIdx true
        stack := (nx, ny) :: s.stack
        k := s.k + 3 }
    | none => { s with stack := rest, k := s.k + 3 }

/-- The DFS loop, fueled.  Each iteration either visits a fresh cell (at most
`w*h - 1` times) or pops (at most once per push plus the initial cell), so
`2 * w * h` iterations always reach the empty stack. -/
def genLoop (m : Maze) (rng : ℕ → ℕ) : ℕ → GenState → GenState
  | 0, s => s
  | fuel + 1, s => if s.stack = [] then s else genLoop m rng fuel (genStep m rng s)

/-- `Maze_Generate` of maze.c: mark `(0,0)` visited, push it, and run the
DFS backtracking loop, carving passages in place. -/
def Maze_Generate (rng : ℕ → ℕ) (m : Maze) : Maze :=
  let n := (m.width * m.height).toNat
  let s0 : GenState :=
    { cells := m.cells
      visited := (List.replicate n false).set (CellIndex m 0 0).toNat true
      stack := [(0, 0)]
      k := 0 }
  { m with cells := (genLoop m rng (2 * n) s0).cells }

/-! ## Analysis helpers for the generated grid -/

/-- The in-grid cells as a finite set. -/
def cellFinset (w h : ℤ) : Finset (ℤ × ℤ) :=
  Finset.Icc 0 (w - 1) ×ˢ Finset.Icc 0 (h - 1)

/-- Left cells of horizontal adjacent pairs `((x,y),(x+1,y))`. -/
def hEdgeSet (w h : ℤ) : Finset (ℤ × ℤ) :=
  Finset.Icc 0 (w - 2) ×ˢ Finset.Icc 0 (h - 1)

/-- Upper cells of vertical adjacent pairs `((x,y),(x,y+1))`. -/
def vEdgeSet (w h : ℤ) : Finset (ℤ × ℤ) :=
  Finset.Icc 0 (w - 1) ×ˢ Finset.Icc 0 (h - 2)

/-- Row-major buffer index of a cell (meaningful for in-grid cells). -/
def idxOf (w : ℤ) (c : ℤ × ℤ) : ℕ := (c.2 * w + c.1).toNat

/-- Wall mask stored for a cell in a raw buffer. -/
def maskAt (w : ℤ) (cells : List ℕ) (c : ℤ × ℤ) : ℕ := cells.getD (idxOf w c) 0

/-- Wall bit of a cell in a raw buffer. -/
def wallAt (w : ℤ) (cells : List ℕ) (c : ℤ × ℤ) (d : ℕ) : Bool :=
  decide (maskAt w cells c &&& d ≠ 0)

/-- Visited flag of a cell in a raw `visited` buffer. -/
def visAt (w : ℤ) (vis : List Bool) (c : ℤ × ℤ) : Bool := vis.getD (idxOf w c) false

/-- Number of visited in-grid cells. -/
def visCount (w h : ℤ) (vis : List Bool) : ℕ :=
  ((cellFinset w h).filter (fun c => visAt w vis c = true)).card

/-- Number of unvisited in-grid cells. -/
def unvisCount (w h : ℤ) (vis : List Bool) : ℕ :=
  ((cellFinset w h).filter (fun c => visAt w vis c = false)).card

/-- Number of open (carved) adjacent-cell pairs in a raw buffer, counting
each pair once at its left/upper cell. -/
def openEdgeCount (w h : ℤ) (cells : List ℕ) : ℕ :=
  ((hEdgeSet w h).filter (fun c => wallAt w cells c MAZE_EAST = false)).card +
  ((vEdgeSet w h).filter (fun c => wallAt w cells c MAZE_SOUTH = false)).card

/-- Two in-grid cells are adjacent with no wall between them (raw buffer). -/
def adjOpen (w h : ℤ) (cells : List ℕ) (c d : ℤ × ℤ) : Prop :=
  c ∈ cellFinset w h ∧ d ∈ cellFinset w h ∧
    ((d = (c.1 + 1, c.2) ∧ wallAt w cells c MAZE_EAST = false) ∨
     (d = (c.1, c.2 + 1) ∧ wallAt w cells c MAZE_SOUTH = false) ∨
     (c = (d.1 + 1, d.2) ∧ wallAt w cells d MAZE_EAST = false) ∨
     (c = (d.1, d.2 + 1) ∧ wallAt w cells d MAZE_SOUTH = false))

/-- Reachability through open passages (raw buffer). -/
def ReachIn (w h : ℤ) (cells : List ℕ) : (ℤ × ℤ) → (ℤ × ℤ) → Prop :=
  Relation.ReflTransGen (adjOpen w h cells)

/-- Two in-grid cells of a maze are adjacent and the shared wall is absent
(queried through `Maze_HasWall`). -/
def openPassage (m : Maze) (c d : ℤ × ℤ) : Prop :=
  c ∈ cellFinset m.width m.height ∧ d ∈ cellFinset m.width m.height ∧
    ((d = (c.1 + 1, c.2) ∧ Maze_HasWall m c.1 c.2 MAZE_EAST = false) ∨
     (d = (c.1, c.2 + 1) ∧ Maze_HasWall m c.1 c.2 MAZE_SOUTH = false) ∨
     (c = (d.1 + 1, d.2) ∧ Maze_HasWall m d.1 d.2 MAZE_EAST = false) ∨
     (c = (d.1, d.2 + 1) ∧ Maze_HasWall m d.1 d.2 MAZE_SOUTH = false))

/-- Reachability through open passages of a maze. -/
def ReachMaze (m : Maze) : (ℤ × ℤ) → (ℤ × ℤ) → Prop :=
  Relation.ReflTransGen (openPassage m)

/-- Number of adjacent-cell pairs of a maze with no wall between them, each
shared wall inspected once from its left/upper side. -/
def openPassageCount (m : Maze) : ℕ :=
  ((hEdgeSet m.width m.height).filter
      (fun c => Maze_HasWall m c.1 c.2 MAZE_EAST = false)).card +
  ((vEdgeSet m.width m.height).filter
      (fun c => Maze_HasWall m c.1 c.2 MAZE_SOUTH = false)).card

/-- Adjacent cells agree about their shared wall: the East bit of `(x,y)`
matches the West bit of `(x+1,y)` and the South bit of `(x,y)` matches the
North bit of `(x,y+1)`. -/
def wallMaskSym (m : Maze) : Prop :=
  (∀ x y : ℤ, 0 ≤ x → x + 1 < m.width → 0 ≤ y → y < m.height →
    Maze_HasWall m x y MAZE_EAST = Maze_HasWall m (x + 1) y MAZE_WEST) ∧
  (∀ x y : ℤ, 0 ≤ x → x < m.width → 0 ≤ y → y + 1 < m.height →
    Maze_HasWall m x y MAZE_SOUTH = Maze_HasWall m x (y + 1) MAZE_NORTH)

/-- The loop invariant of the `Maze_Generate` DFS. -/
structure GenInv (m : Maze) (s : GenState) : Prop where
  lenC : s.cells.length = (m.width * m.height).toNat
  lenV : s.visited.length = (m.width * m.height).toNat
  maskLe : ∀ v ∈ s.cells, v ≤ 15
  stackGrid : ∀ c ∈ s.stack, c ∈ cellFinset m.width m.height
  stackVis : ∀ c ∈ s.stack, visAt m.width s.visited c = true
  originVis : visAt m.width s.visited (0, 0) = true
  sym : ∀ c ∈ cellFinset m.width m.height, ∀ d ∈ [MAZE_NORTH, MAZE_EAST, MAZE_SOUTH, MAZE_WEST],
    (c.1 + (dirOffset d).1, c.2 + (dirOffset d).2) ∈ cellFinset m.width m.height →
    wallAt m.width s.cells c d =
      wallAt m.width s.cells (c.1 + (dirOffset d).1, c.2 + (dirOffset d).2) (oppositeDir d)
  unvisFull : ∀ c ∈ cellFinset m.width m.height,
    visAt m.width s.visited c = false → maskAt m.width s.cells c = 15
  count : openEdgeCount m.width m.height s.cells + 1 = visCount m.width m.height s.visited
  reach : ∀ c ∈ cellFinset m.width m.height,
    visAt m.width s.visited c = true → ReachIn m.width m.height s.cells (0, 0) c
  popped : ∀ c ∈ cellFinset m.width m.height, visAt m.width s.visited c = true →
    c ∉ s.stack → ∀ d ∈ [MAZE_NORTH, MAZE_EAST, MAZE_SOUTH, MAZE_WEST],
    (c.1 + (dirOffset d).1, c.2 + (dirOffset d).2) ∈ cellFinset m.width m.height →
    visAt m.width s.visited (c.1 + (dirOffset d).1, c.2 + (dirOffset d).2) = true

/-! ## Wall collision rectangles (maze.c `Maze_GetWallRects`) -/

/-- The `wallThick` constant of `Maze_GetWallRects` (0.1f). -/
def wallThick : ℚ := 1/10

/-- The cells in the order the `Maze_GetWallRects` double loop scans them. -/
def gridCells (m : Maze) : List (ℤ × ℤ) :=
  (List.range m.height.toNat).flatMap
    (fun y : ℕ => (List.range m.width.toNat).map (fun x : ℕ => ((x : ℤ), (y : ℤ))))

/-- The rectangles one cell body of `Maze_GetWallRects` emits, in source
order: North, West, East (last column only), South (last row only). -/
def cellRects (m : Maze) (c : ℤ × ℤ) : List WallRect :=
  let cellCenterX := ((c.1 : ℚ) - (m.width : ℚ) * (1/2) + 1/2) * m.cellSize
  let cellCenterZ := ((c.2 : ℚ) - (m.height : ℚ) * (1/2) + 1/2) * m.cellSize
  let halfCell := m.cellSize * (1/2)
  (if Maze_HasWall m c.1 c.2 MAZE_NORTH then
    [⟨⟨cellCenterX - halfCell - wallThick * (1/2), cellCenterZ - halfCell - wallThick * (1/2),
       m.cellSize + wallThick, wallThick⟩, false⟩] else []) ++
  (if Maze_HasWall m c.1 c.2 MAZE_WEST then
    [⟨⟨cellCenterX - halfCell - wallThick * (1/2), cellCenterZ - halfCell - wallThick * (1/2),
       wallThick, m.cellSize + wallThick⟩, true⟩] else []) ++
  (if c.1 = m.width - 1 ∧ Maze_HasWall m c.1 c.2 MAZE_EAST then
    [⟨⟨cellCenterX + halfCell - wallThick * (1/2), cellCenterZ - halfCell - wallThick * (1/2),
       wallThick, m.cellSize + wallThick⟩, true⟩] else []) ++
  (if c.2 = m.height - 1 ∧ Maze_HasWall m c.1 c.2 MAZE_SOUTH then
    [⟨⟨cellCenterX - halfCell - wallThick * (1/2), cellCenterZ + halfCell - wallThick * (1/2),
       m.cellSize + wallThick, wallThick⟩, false⟩] else [])

/-- The cell loop of `Maze_GetWallRects` with its running `count` check
(`count < maxRects` is tested before each cell body; once the budget is
reached every remaining cell is skipped). -/
def wallRectsGo (m : Maze) (maxRects : ℕ) : List (ℤ × ℤ) → ℕ → List WallRect
  | [], _ => []
  | c :: cs, count =>
    if count < maxRects then
      cellRects m c ++ wallRectsGo m maxRects cs (count + (cellRects m c).length)
    else []

/-- `Maze_GetWallRects` of maze.c. -/
def Maze_GetWallRects (m : Maze) (maxRects : ℕ) : List WallRect :=
  wallRectsGo m maxRects (gridCells m) 0

/-- Spec-side rectangle: a wall segment from `(x0,z0)` to `(x1,z1)` extended
symmetrically by half the fixed thickness on every side, so that it is
centered on the wall's centerline and overlaps neighbors at corners. -/
def segRect (x0 z0 x1 z1 : ℚ) : Rectangle :=
  { x := x0 - wallThick * (1/2)
    y := z0 - wallThick * (1/2)
    width := (x1 - x0) + wallThick
    height := (z1 - z0) + wallThick }

/-- Spec-side emission for one cell, following the specification text: one
rectangle per present North wall and per present West wall, plus the East
wall for last-column cells and the South wall for last-row cells, each
rectangle built symmetrically around the wall segment between the cell's
corners. -/
def specCellRects (m : Maze) (c : ℤ × ℤ) : List WallRect :=
  let ctr := Maze_CellToWorld m c.1 c.2
  let half := m.cellSize * (1/2)
  (if Maze_HasWall m c.1 c.2 MAZE_NORTH then
    [⟨segRect (ctr.1 - half) (ctr.2 - half) (ctr.1 + half) (ctr.2 - half), false⟩] else []) ++
  (if Maze_HasWall m c.1 c.2 MAZE_WEST then
    [⟨segRect (ctr.1 - half) (ctr.2 - half) (ctr.1 - half) (ctr.2 + half), true⟩] else []) ++
  (if c.1 = m.width - 1 ∧ Maze_HasWall m c.1 c.2 MAZE_EAST then
    [⟨segRect (ctr.1 + half) (ctr.2 - half) (ctr.1 + half) (ctr.2 + half), true⟩] else []) ++
  (if c.2 = m.height - 1 ∧ Maze_HasWall m c.1 c.2 MAZE_SOUTH then
    [⟨segRect (ctr.1 - half) (ctr.2 + half) (ctr.1 + half) (ctr.2 + half), false⟩] else [])

/-- Spec-side wall segment list, in cell order. -/
def specWallSegments (m : Maze) : List WallRect :=
  (gridCells m).flatMap (specCellRects m)

/-! ## Collision system (main.c) -/

/-- `clampf` of main.c. -/
def clampf (v lo hi : ℚ) : ℚ := if v < lo then lo else if hi < v then hi else v

/-- `CircleRectIntersect` of main.c: clamp the center into the rectangle and
compare the squared distance with the squared radius (boundary inclusive). -/
def CircleRectIntersect (c : ℚ × ℚ) (r : ℚ) (rect : Rectangle) : Bool :=
  let nx := clampf c.1 rect.x (rect.x + rect.width)
  let nz := clampf c.2 rect.y (rect.y + rect.height)
  let dx := c.1 - nx
  let dz := c.2 - nz
  decide (dx * dx + dz * dz ≤ r * r)

/-- `CircleCircleIntersect` of main.c (boundary inclusive). -/
def CircleCircleIntersect (c1 : ℚ × ℚ) (r1 : ℚ) (c2 : ℚ × ℚ) (r2 : ℚ) : Bool :=
  let dx := c1.1 - c2.1
  let dz := c1.2 - c2.2
  let distSq := dx * dx + dz * dz
  let radiusSum := r1 + r2
  decide (distSq ≤ radiusSum * radiusSum)

/-- `CollidesAny` of main.c. -/
def CollidesAny (c : ℚ × ℚ) (r : ℚ) (walls : List WallRect) : Bool :=
  walls.any (fun w => CircleRectIntersect c r w.rect)

/-- The axis-separated movement resolution block of main.c: try the X
displacement alone, keep it only if collision free, then try the Z
displacement alone from the possibly updated position. -/
def resolveMove (p step : ℚ × ℚ) (r : ℚ) (walls : List WallRect) : ℚ × ℚ :=
  let testX : ℚ × ℚ := (p.1 + step.1, p.2)
  let p1 := if CollidesAny testX r walls then p else testX
  let testZ : ℚ × ℚ := (p1.1, p1.2 + step.2)
  if CollidesAny testZ r walls then p1 else testZ

/-! ## Particle system (maze.c part 2) -/

/-- The `Particle` struct (color is modelled by its randomized green channel;
the other channels are the constants 255, 0, 255). -/
structure Particle where
  position : ℚ × ℚ × ℚ
  velocity : ℚ × ℚ × ℚ
  life : ℚ
  maxLife : ℚ
  size : ℚ
  colorG : ℕ
deriving DecidableEq

/-- The `ParticleSystem` struct.  `particles` is the active prefix of the
fixed pool (`activeParticles` is its length). -/
structure ParticleSystem where
  particles : List Particle
  maxParticles : ℕ
  emitterPos : ℚ × ℚ × ℚ
  emitRate : ℚ
  emitAccumulator : ℚ
deriving DecidableEq

/-- `activeParticles` of the C struct. -/
def ParticleSystem.activeParticles (ps : ParticleSystem) : ℕ := ps.particles.length

/-- `ParticleSystem_Create` of maze.c (allocation assumed to succeed). -/
def ParticleSystem_Create (maxParticles : ℕ) : ParticleSystem :=
  { particles := []
    maxParticles := maxParticles
    emitterPos := (0, 0, 0)
    emitRate := 15
    emitAccumulator := 0 }

/-- A freshly emitted particle (six `rand()` values in source order). -/
def newParticle (rng : ℕ → ℕ) (k : ℕ) (emitterPos : ℚ × ℚ × ℚ) : Particle :=
  { position := (emitterPos.1, (emitterPos.2.1 + 1/4, emitterPos.2.2))
    velocity := ((((rng k % 200 : ℕ) : ℚ) - 100) / 500,
                 ((((rng (k+1) % 300 : ℕ) : ℚ) + 100) / 500,
                  (((rng (k+2) % 200 : ℕ) : ℚ) - 100) / 500))
    life := 1
    maxLife := 1/2 + ((rng (k+3) % 50 : ℕ) : ℚ) / 100
    size := 1/20 + ((rng (k+4) % 30 : ℕ) : ℚ) / 1000
    colorG := 150 + rng (k+5) % 50 }

/-- The emission loop: `toEmit` iterations, each gated by
`activeParticles < maxParticles`. -/
def emitLoop (rng : ℕ → ℕ) (emitterPos : ℚ × ℚ × ℚ) (maxP : ℕ) :
    ℕ → ℕ → List Particle → List Particle × ℕ
  | 0, k, ps => (ps, k)
  | n + 1, k, ps =>
    if ps.length < maxP then
      emitLoop rng emitterPos maxP n (k + 6) (ps ++ [newParticle rng k emitterPos])
    else (ps, k)

/-- Per-particle physics of `ParticleSystem_Update`: gravity on the velocity,
then integrate the position with the updated velocity, then decrement life. -/
def physUpd (dt : ℚ) (p : Particle) : Particle :=
  let v : ℚ × ℚ × ℚ := (p.velocity.1, (p.velocity.2.1 + (-2) * dt, p.velocity.2.2))
  { p with
    velocity := v
    position := (p.position.1 + v.1 * dt,
                 (p.position.2.1 + v.2.1 * dt, p.position.2.2 + v.2.2 * dt))
    life := p.life - dt }

/-- The update/removal loop of `ParticleSystem_Update`.  A dead particle is
replaced by the last active particle (which is then reprocessed in its slot)
and the active count drops — modelled on the active list by moving the last
element into the head position.  The fuel argument mirrors the loop bound
`i < activeParticles`; `fuel = length` runs the loop to completion. -/
def updateLoopF (dt : ℚ) : ℕ → List Particle → List Particle
  | 0, _ => []
  | _, [] => []
  | fuel + 1, p :: rest =>
    let p' := physUpd dt p
    if p'.life ≤ 0 then
      match rest with
      | [] => []
      | q :: qs => updateLoopF dt fuel (((q :: qs).getLast (by simp)) :: (q :: qs).dropLast)
    else p' :: updateLoopF dt fuel rest

/-- `ParticleSystem_Update` of maze.c: accumulate the emission budget, emit,
then update all active particles (including the ones just emitted). -/
def ParticleSystem_Update (rng : ℕ → ℕ) (ps : ParticleSystem) (k : ℕ)
    (emitterPos : ℚ × ℚ × ℚ) (dt : ℚ) : ParticleSystem × ℕ :=
  let acc := ps.emitAccumulator + ps.emitRate * dt
  let toEmit := truncInt acc
  let acc2 := acc - (toEmit : ℚ)
  let em := emitLoop rng emitterPos ps.maxParticles toEmit.toNat k ps.particles
  let final := updateLoopF dt em.1.length em.1
  ({ particles := final
     maxParticles := ps.maxParticles
     emitterPos := emitterPos
     emitRate := ps.emitRate
     emitAccumulator := acc2 }, em.2)

/-- A sequence of frame updates `(emitter position, dt)` applied in order. -/
def runParticleUpdates (rng : ℕ → ℕ) (s : ParticleSystem × ℕ)
    (us : List ((ℚ × ℚ × ℚ) × ℚ)) : ParticleSystem × ℕ :=
  us.foldl (fun s u => ParticleSystem_Update rng s.1 s.2 u.1 u.2) s

/-! ## Pursuers (part_001 main loop) -/

/-- `GameState` of part_001 (`GAME_STATE_GAMEOVER` is the Lost state). -/
inductive GameState where
  | PLAYING
  | WON
  | GAMEOVER
deriving DecidableEq

/-- The `ScaryCharacter` struct (position is the XZ ground-plane point; the
`Vector3` y component is permanently 0). -/
structure ScaryCharacter where
  position : ℚ × ℚ
  speed : ℚ
  radius : ℚ
  height : ℚ
deriving DecidableEq

def PLAYER_RADIUS : ℚ := 3/10
def SCARY_CHAR_SPEED : ℚ := 14/5
def SCARY_CHAR_RADIUS : ℚ := 7/20
def SCARY_CHAR_HEIGHT : ℚ := 11/5
def SCARY_CHAR_RANDOMNESS : ℚ := 3/20
def RAND_MAX_C : ℕ := 2147483647
def PI_LITERAL : ℚ := 314159265359 / 100000000000
def MIN_DISTANCE_FROM_PLAYER : ℚ := 30
def RELAXED_DISTANCE : ℚ := 25

/-- One pursuer movement step of part_001: seek direction to the player,
perturb it by a bounded random rotation, blend, renormalize, then resolve
the displacement with the same axis-separated rule as the player.  `sqrtF`,
`cosF`, `sinF` stand for the C library `sqrtf`, `cosf`, `sinf`. -/
def moveScaryChar (sqrtF cosF sinF : ℚ → ℚ) (rng : ℕ → ℕ) (walls : List WallRect)
    (dt : ℚ) (player : ℚ × ℚ) (c : ScaryCharacter) (k : ℕ) : ScaryCharacter × ℕ :=
  let dir0 : ℚ × ℚ := (player.1 - c.position.1, player.2 - c.position.2)
  let dist := sqrtF (dir0.1 * dir0.1 + dir0.2 * dir0.2)
  if 1/1000 < dist then
    let dir1 : ℚ × ℚ := (dir0.1 / dist, dir0.2 / dist)
    let randomAngle := ((rng k % (RAND_MAX_C + 1) : ℕ) : ℚ) / (RAND_MAX_C : ℚ) * 2
      * PI_LITERAL * SCARY_CHAR_RANDOMNESS
    let cosAngle := cosF randomAngle
    let sinAngle := sinF randomAngle
    let randomDir : ℚ × ℚ := (dir1.1 * cosAngle - dir1.2 * sinAngle,
                              dir1.1 * sinAngle + dir1.2 * cosAngle)
    let dir2 : ℚ × ℚ :=
      (dir1.1 * (1 - SCARY_CHAR_RANDOMNESS) + randomDir.1 * SCARY_CHAR_RANDOMNESS,
       dir1.2 * (1 - SCARY_CHAR_RANDOMNESS) + randomDir.2 * SCARY_CHAR_RANDOMNESS)
    let dirLen := sqrtF (dir2.1 * dir2.1 + dir2.2 * dir2.2)
    let dir3 := if 1/1000 < dirLen then (dir2.1 / dirLen, dir2.2 / dirLen) else dir2
    let moveStep : ℚ × ℚ := (dir3.1 * c.speed * dt, dir3.2 * c.speed * dt)
    ({ c with position := resolveMove c.position moveStep c.radius walls }, k + 1)
  else (c, k)

/-- The per-frame pursuer loop of part_001 while the session is `PLAYING`:
move each pursuer in order, then test it against the player's circle; the
first intersection sets `GAME_STATE_GAMEOVER` and breaks out of the loop,
leaving the remaining pursuers untouched and unchecked. -/
def chaseLoop (sqrtF cosF sinF : ℚ → ℚ) (rng : ℕ → ℕ) (walls : List WallRect)
    (dt : ℚ) (player : ℚ × ℚ) :
    List ScaryCharacter → ℕ → List ScaryCharacter × GameState × ℕ
  | [], k => ([], GameState.PLAYING, k)
  | c :: rest, k =>
    let mc := moveScaryChar sqrtF cosF sinF rng walls dt player c k
    if CircleCircleIntersect player PLAYER_RADIUS mc.1.position mc.1.radius then
      (mc.1 :: rest, GameState.GAMEOVER, mc.2)
    else
      let r := chaseLoop sqrtF cosF sinF rng walls dt player rest mc.2
      (mc.1 :: r.1, r.2.1, r.2.2)

/-! ## Pursuer spawn placement (part_001 InitGame) -/

/-- One random cell pick: `rand() % width`, `rand() % height`. -/
def pickCell (rng : ℕ → ℕ) (m : Maze) (k : ℕ) : (ℤ × ℤ) × ℕ :=
  ((((rng k % m.width.toNat : ℕ) : ℤ), ((rng (k+1) % m.height.toNat : ℕ) : ℤ)), k + 2)

/-- The full spawn constraint of phase one: not the start cell, not the exit
cell, not a cell already holding an earlier pursuer, and at least the
minimum world distance from the player start. -/
def spawnOk (m : Maze) (sqrtF : ℚ → ℚ) (prev : List (ℚ × ℚ)) (playerStart : ℚ × ℚ)
    (cell : ℤ × ℤ) : Bool :=
  let isStart := decide (cell = m.startPos)
  let isExit := decide (cell = m.exitPos)
  let isDuplicate := prev.any (fun p => decide (Maze_WorldToCell m p.1 p.2 = cell))
  let wpos := Maze_CellToWorld m cell.1 cell.2
  let dx := wpos.1 - playerStart.1
  let dz := wpos.2 - playerStart.2
  let distFromPlayer := sqrtF (dx * dx + dz * dz)
  let isFarEnough := decide (MIN_DISTANCE_FROM_PLAYER ≤ distFromPlayer)
  !isStart && !isExit && !isDuplicate && isFarEnough

/-- Phase one: up to 200 attempts under the full constraint.  The cell
argument carries the most recent pick (the C locals keep their last value
when the budget runs out). -/
def spawnAttempts (m : Maze) (sqrtF : ℚ → ℚ) (rng : ℕ → ℕ) (prev : List (ℚ × ℚ))
    (playerStart : ℚ × ℚ) : ℕ → (ℤ × ℤ) → ℕ → (ℤ × ℤ) × Bool × ℕ
  | 0, cell, k => (cell, false, k)
  | n + 1, _, k =>
    let pk := pickCell rng m k
    if spawnOk m sqrtF prev playerStart pk.1 then (pk.1, true, pk.2)
    else spawnAttempts m sqrtF rng prev playerStart n pk.1 pk.2

/-- Phase two: up to 50 attempts under the relaxed distance-only constraint. -/
def spawnRelaxed (m : Maze) (sqrtF : ℚ → ℚ) (rng : ℕ → ℕ)
    (playerStart : ℚ × ℚ) : ℕ → (ℤ × ℤ) → ℕ → (ℤ × ℤ) × Bool × ℕ
  | 0, cell, k => (cell, false, k)
  | n + 1, _, k =>
    let pk := pickCell rng m k
    let wpos := Maze_CellToWorld m pk.1.1 pk.1.2
    let dx := wpos.1 - playerStart.1
    let dz := wpos.2 - playerStart.2
    let distFromPlayer := sqrtF (dx * dx + dz * dz)
    if RELAXED_DISTANCE ≤ distFromPlayer then (pk.1, true, pk.2)
    else spawnRelaxed m sqrtF rng playerStart n pk.1 pk.2

/-- Placement of one pursuer: 200 constrained attempts, then 50 relaxed
attempts, then one unconstrained pick. -/
def placeOne (m : Maze) (sqrtF : ℚ → ℚ) (rng : ℕ → ℕ) (playerStart : ℚ × ℚ)
    (prev : List (ℚ × ℚ)) (k : ℕ) : (ℤ × ℤ) × ℕ :=
  let a := spawnAttempts m sqrtF rng prev playerStart 200 (0, 0) k
  if a.2.1 then (a.1, a.2.2)
  else
    let b := spawnRelaxed m sqrtF rng playerStart 50 a.1 a.2.2
    if b.2.1 then (b.1, b.2.2) else pickCell rng m b.2.2

/-- Placement of all pursuers in order; `prev` collects the world positions
assigned to earlier pursuers (the duplicate check converts them back to
cells with `Maze_WorldToCell`). -/
def placeChars (m : Maze) (sqrtF : ℚ → ℚ) (rng : ℕ → ℕ) (playerStart : ℚ × ℚ) :
    ℕ → List (ℚ × ℚ) → ℕ → List (ℤ × ℤ) × ℕ
  | 0, _, k => ([], k)
  | n + 1, prev, k =>
    let pc := placeOne m sqrtF rng playerStart prev k
    let wpos := Maze_CellToWorld m pc.1.1 pc.1.2
    let r := placeChars m sqrtF rng playerStart n (prev ++ [wpos]) pc.2
    (pc.1 :: r.1, r.2)

/-! ## Basic grid lemmas -/

theorem mem_cellFinset {w h : ℤ} {c : ℤ × ℤ} :
    c ∈ cellFinset w h ↔ 0 ≤ c.1 ∧ c.1 < w ∧ 0 ≤ c.2 ∧ c.2 < h := by
  simp only [cellFinset, Finset.mem_product, Finset.mem_Icc]
  omega

theorem width_pos_of_mem {w h : ℤ} {c : ℤ × ℤ} (hc : c ∈ cellFinset w h) :
    0 < w ∧ 0 < h := by
  rw [mem_cellFinset] at hc
  omega

theorem idxOf_nonneg_val {w h : ℤ} {c : ℤ × ℤ} (hc : c ∈ cellFinset w h) :
    0 ≤ c.2 * w + c.1 := by
  rw [mem_cellFinset] at hc
  have hw : 0 < w := by omega
  have h1 : 0 ≤ c.2 * w := mul_nonneg hc.2.2.1 hw.le
  omega

theorem idxOf_lt_val {w h : ℤ} {c : ℤ × ℤ} (hc : c ∈ cellFinset w h) :
    c.2 * w + c.1 < w * h := by
  rw [mem_cellFinset] at hc
  have hw : 0 < w := by omega
  have h1 : c.2 * w + c.1 < (c.2 + 1) * w := by nlinarith
  have h2 : (c.2 + 1) * w ≤ h * w := by nlinarith
  nlinarith

theorem idxOf_lt {w h : ℤ} {c : ℤ × ℤ} (hc : c ∈ cellFinset w h) :
    idxOf w c < (w * h).toNat := by
  have h1 := idxOf_nonneg_val hc
  have h2 := idxOf_lt_val hc
  unfold idxOf
  omega

theorem idxOf_inj {w h : ℤ} {c c' : ℤ × ℤ} (hc : c ∈ cellFinset w h)
    (hc' : c' ∈ cellFinset w h) (he : idxOf w c = idxOf w c') : c = c' := by
  have h1 := idxOf_nonneg_val hc
  have h2 := idxOf_nonneg_val hc'
  have he' : c.2 * w + c.1 = c'.2 * w + c'.1 := by unfold idxOf at he; omega
  rw [mem_cellFinset] at hc hc'
  have hw : 0 < w := by omega
  have hyy : c.2 = c'.2 := by
    by_contra hne
    rcases lt_or_gt_of_ne hne with hlt | hgt
    · have : (c.2 + 1) * w ≤ c'.2 * w := by nlinarith
      nlinarith
    · have : (c'.2 + 1) * w ≤ c.2 * w := by nlinarith
      nlinarith
  have hxx : c.1 = c'.1 := by
    rw [hyy] at he'
    omega
  exact Prod.ext hxx hyy

theorem CellIndex_of_mem {m : Maze} {c : ℤ × ℤ} (hc : c ∈ cellFinset m.width m.height) :
    CellIndex m c.1 c.2 = c.2 * m.width + c.1 := by
  have h := hc
  rw [mem_cellFinset] at h
  unfold CellIndex
  rw [if_neg]
  omega

theorem CellIndex_toNat_of_mem {m : Maze} {c : ℤ × ℤ}
    (hc : c ∈ cellFinset m.width m.height) :
    (CellIndex m c.1 c.2).toNat = idxOf m.width c := by
  rw [CellIndex_of_mem hc]
  rfl

theorem CellIndex_neg_of_not_mem {m : Maze} {c : ℤ × ℤ}
    (hc : c ∉ cellFinset m.width m.height) : CellIndex m c.1 c.2 = -1 := by
  rw [mem_cellFinset] at hc
  unfold CellIndex
  rw [if_pos]
  omega

theorem CellIndex_nonneg_of_mem {m : Maze} {c : ℤ × ℤ}
    (hc : c ∈ cellFinset m.width m.height) : 0 ≤ CellIndex m c.1 c.2 := by
  rw [CellIndex_of_mem hc]
  exact idxOf_nonneg_val hc

theorem Maze_HasWall_of_mem {m : Maze} {c : ℤ × ℤ}
    (hc : c ∈ cellFinset m.width m.height) (d : ℕ) :
    Maze_HasWall m c.1 c.2 d = wallAt m.width m.cells c d := by
  unfold Maze_HasWall wallAt maskAt
  rw [if_neg (by have := CellIndex_nonneg_of_mem hc; omega), CellIndex_toNat_of_mem hc]

theorem Maze_HasWall_oob {m : Maze} {c : ℤ × ℤ}
    (hc : c ∉ cellFinset m.width m.height) (d : ℕ) :
    Maze_HasWall m c.1 c.2 d = true := by
  unfold Maze_HasWall
  rw [if_pos (by rw [CellIndex_neg_of_not_mem hc]; omega)]

/-! ## List buffer access lemmas -/

theorem getD_set_self {α : Type} (l : List α) (i : ℕ) (a dflt : α) (h : i < l.length) :
    (l.set i a).getD i dflt = a := by
  simp [List.getD_eq_getElem?_getD, List.getElem?_set, h]

theorem getD_set_ne {α : Type} (l : List α) (i j : ℕ) (a dflt : α) (h : i ≠ j) :
    (l.set i a).getD j dflt = l.getD j dflt := by
  simp [List.getD_eq_getElem?_getD, List.getElem?_set, h]

theorem getD_replicate {α : Type} (n i : ℕ) (a dflt : α) (h : i < n) :
    (List.replicate n a).getD i dflt = a := by
  simp [List.getD_eq_getElem?_getD, List.getElem?_replicate, h]

/-! ## truncInt lemmas -/

theorem truncInt_of_nonneg {q : ℚ} (h : 0 ≤ q) : truncInt q = ⌊q⌋ := by
  unfold truncInt
  rw [if_pos h]

theorem truncInt_int_add_half (x : ℤ) (hx : 0 ≤ x) : truncInt ((x : ℚ) + 1/2) = x := by
  rw [truncInt_of_nonneg (by positivity)]
  rw [Int.floor_eq_iff]
  constructor
  · linarith
  · push_cast
    linarith

theorem le_truncInt_of_le {q : ℚ} {z : ℤ} (hz : 0 ≤ z) (h : (z : ℚ) ≤ q) :
    z ≤ truncInt q := by
  have hq : 0 ≤ q := le_trans (by exact_mod_cast hz) h
  rw [truncInt_of_nonneg hq]
  exact Int.le_floor.mpr h

/-! ## C2: round-trip cell-to-world-to-cell -/

/-- C2: for every maze with positive cell size and every in-grid cell
`(x,y)`, `Maze_WorldToCell` applied to the world point returned by
`Maze_CellToWorld x y` returns exactly `(x, y)`. -/
theorem cellToWorld_worldToCell_roundtrip (m : Maze) (x y : ℤ)
    (hcs : 0 < m.cellSize) (hx0 : 0 ≤ x) (hxw : x < m.width)
    (hy0 : 0 ≤ y) (hyh : y < m.height) :
    Maze_WorldToCell m (Maze_CellToWorld m x y).1 (Maze_CellToWorld m x y).2 = (x, y) := by
  have hne : m.cellSize ≠ 0 := ne_of_gt hcs
  simp only [Maze_CellToWorld, Maze_WorldToCell]
  have hX : ((x : ℚ) - (m.width : ℚ) * (1/2) + 1/2) * m.cellSize / m.cellSize
      + (m.width : ℚ) * (1/2) = (x : ℚ) + 1/2 := by
    field_simp
    ring
  have hY : ((y : ℚ) - (m.height : ℚ) * (1/2) + 1/2) * m.cellSize / m.cellSize
      + (m.height : ℚ) * (1/2) = (y : ℚ) + 1/2 := by
    field_simp
    ring
  rw [hX, hY, truncInt_int_add_half x hx0, truncInt_int_add_half y hy0]

/-- C2 witness: the round trip at a concrete maze and cell. -/
theorem cellToWorld_worldToCell_roundtrip_witness :
    Maze_WorldToCell (Maze.mk 2 2 (List.replicate 4 MAZE_ALL) 3 (0,0) (1,1))
      (Maze_CellToWorld (Maze.mk 2 2 (List.replicate 4 MAZE_ALL) 3 (0,0) (1,1)) 1 0).1
      (Maze_CellToWorld (Maze.mk 2 2 (List.replicate 4 MAZE_ALL) 3 (0,0) (1,1)) 1 0).2 = (1, 0) :=
  cellToWorld_worldToCell_roundtrip _ 1 0 (by norm_num) (by norm_num) (by norm_num)
    (by norm_num) (by norm_num)

/-! ## C4: creation contract -/

/-- C4: `Maze_Create` returns `none` exactly for invalid parameters (in the
model allocation always succeeds), and a successful creation is fully
initialized: every cell has all four walls, `startPos = (0,0)`,
`exitPos = (width-1, height-1)`. -/
theorem maze_create_contract :
    (∀ (w h : ℤ) (cs : ℚ), Maze_Create w h cs = none ↔ (w < 1 ∨ h < 1 ∨ cs ≤ 0)) ∧
    (∀ (w h : ℤ) (cs : ℚ) (m : Maze), Maze_Create w h cs = some m →
      m.width = w ∧ m.height = h ∧ m.cellSize = cs ∧
      m.startPos = (0, 0) ∧ m.exitPos = (w - 1, h - 1) ∧
      ∀ x y : ℤ, 0 ≤ x → x < w → 0 ≤ y → y < h →
        ∀ d ∈ [MAZE_NORTH, MAZE_EAST, MAZE_SOUTH, MAZE_WEST],
          Maze_HasWall m x y d = true) := by
  constructor
  · intro w h cs
    unfold Maze_Create
    split_ifs with hcond
    · simpa using hcond
    · simpa using hcond
  · intro w h cs m hm
    unfold Maze_Create at hm
    split_ifs at hm with hcond
    obtain rfl := Option.some_injective _ hm.symm
    refine ⟨rfl, rfl, rfl, rfl, rfl, ?_⟩
    intro x y hx0 hxw hy0 hyh d hd
    have hc : ((x, y) : ℤ × ℤ) ∈ cellFinset w h := by
      rw [mem_cellFinset]
      exact ⟨hx0, hxw, hy0, hyh⟩
    have hmem : ((x, y) : ℤ × ℤ) ∈
        cellFinset (Maze.mk w h (List.replicate (w * h).toNat MAZE_ALL) cs (0,0) (w-1, h-1)).width
          (Maze.mk w h (List.replicate (w * h).toNat MAZE_ALL) cs (0,0) (w-1, h-1)).height := hc
    rw [Maze_HasWall_of_mem hmem]
    unfold wallAt maskAt
    rw [getD_replicate _ _ _ _ (idxOf_lt hc)]
    fin_cases hd <;> decide

/-- C4 witness: the contract applied at concrete arguments. -/
theorem maze_create_contract_witness :
    (Maze_Create 0 2 1 = none ↔ ((0:ℤ) < 1 ∨ (2:ℤ) < 1 ∨ (1:ℚ) ≤ 0)) ∧
    ((Maze.mk 2 2 (List.replicate 4 MAZE_ALL) 1 (0,0) (1,1)).startPos = (0, 0) ∧
      Maze_HasWall (Maze.mk 2 2 (List.replicate 4 MAZE_ALL) 1 (0,0) (1,1)) 0 0 MAZE_NORTH = true) := by
  refine ⟨maze_create_contract.1 0 2 1, ?_⟩
  have h := maze_create_contract.2 2 2 1
    (Maze.mk 2 2 (List.replicate 4 MAZE_ALL) 1 (0,0) (1,1)) (by norm_num [Maze_Create]; rfl)
  exact ⟨h.2.2.2.1, h.2.2.2.2.2 0 0 (by norm_num) (by norm_num) (by norm_num) (by norm_num)
    MAZE_NORTH (by simp)⟩

/-! ## C6: out-of-bounds queries -/

/-- C6 counterexample: `Maze_WorldToCell` does not clamp.  On the maze
created by `Maze_Create 2 2 1`, the world position `(100, 0)` (far outside
the maze) maps to cell x-coordinate `101`, which is not inside `[0, 2)`. -/
theorem worldToCell_no_clamp_counterexample :
    ¬ ((Maze_Create 2 2 1).elim True (fun m =>
        0 ≤ (Maze_WorldToCell m 100 0).1 ∧ (Maze_WorldToCell m 100 0).1 < m.width)) := by
  have hm : Maze_Create 2 2 1 =
      some (Maze.mk 2 2 (List.replicate 4 MAZE_ALL) 1 (0,0) (1,1)) := by
    norm_num [Maze_Create]
    rfl
  rw [hm]
  simp only [Option.elim]
  intro hcl
  have h1 : (Maze_WorldToCell (Maze.mk 2 2 (List.replicate 4 MAZE_ALL) 1 (0,0) (1,1))
      100 0).1 = 101 := by
    show truncInt ((100 : ℚ) / 1 + (2 : ℚ) * (1/2)) = 101
    norm_num
    rw [truncInt_of_nonneg (by norm_num)]
    norm_num
  rw [h1] at hcl
  simp at hcl

/-- C6 (amended): out-of-grid queries never fail: `Maze_HasWall` reports a
wall for every out-of-bounds cell and every direction, and
`Maze_WorldToCell` applies the truncating inverse mapping without clamping,
so a world position at least one cell beyond the right edge of the maze maps
to a cell x-coordinate at or beyond `width`. -/
theorem out_of_bounds_queries :
    (∀ (m : Maze) (x y : ℤ) (d : ℕ),
        (x < 0 ∨ m.width ≤ x ∨ y < 0 ∨ m.height ≤ y) → Maze_HasWall m x y d = true) ∧
    (∀ (m : Maze) (wx wz : ℚ), 0 < m.cellSize → 1 ≤ m.width →
        (m.width : ℚ) * (1/2) * m.cellSize + m.cellSize ≤ wx →
        m.width ≤ (Maze_WorldToCell m wx wz).1) := by
  constructor
  · intro m x y d hxy
    refine Maze_HasWall_oob (c := (x, y)) ?_ d
    rw [mem_cellFinset]
    simp only [not_and_or, not_le, not_lt]
    omega
  · intro m wx wz hcs hw hwx
    have hq : (m.width : ℚ) + 1 ≤ wx / m.cellSize + (m.width : ℚ) * (1/2) := by
      have h1 : ((m.width : ℚ) * (1/2) + 1) * m.cellSize ≤ wx := by ring_nf; ring_nf at hwx; linarith
      have h2 : (m.width : ℚ) * (1/2) + 1 ≤ wx / m.cellSize := by
        rw [le_div_iff₀ hcs]
        linarith
      linarith
    have := le_truncInt_of_le (q := wx / m.cellSize + (m.width : ℚ) * (1/2))
      (z := m.width + 1) (by omega) (by push_cast; linarith)
    show m.width ≤ truncInt (wx / m.cellSize + (m.width : ℚ) * (1/2))
    omega

/-- C6 witness: both amended parts at concrete inputs. -/
theorem out_of_bounds_queries_witness :
    Maze_HasWall (Maze.mk 2 2 (List.replicate 4 MAZE_ALL) 1 (0,0) (1,1)) (-3) 0 MAZE_EAST = true ∧
    (2 : ℤ) ≤ (Maze_WorldToCell (Maze.mk 2 2 (List.replicate 4 MAZE_ALL) 1 (0,0) (1,1)) 100 0).1 :=
  ⟨out_of_bounds_queries.1 _ (-3) 0 MAZE_EAST (by norm_num),
   out_of_bounds_queries.2 _ 100 0 (by norm_num) (by norm_num) (by norm_num)⟩

/-! ## C7: axis-separated movement resolution -/

/-- C7: movement resolution attempts the X displacement alone, accepting it
exactly when collision-free, then the Z displacement alone from the possibly
updated position; in the concrete scenario a circle at `(0,0)` of radius
`0.3` moving by `(1,1)` against the rectangle `x ∈ [0.5,1.5], z ∈ [-1,1]` is
blocked on X, free on Z, and ends at `(0,1)`. -/
theorem movement_axis_separated :
    (∀ (p step : ℚ × ℚ) (r : ℚ) (walls : List WallRect),
      resolveMove p step r walls =
        ((if CollidesAny (p.1 + step.1, p.2) r walls then p.1 else p.1 + step.1),
         (if CollidesAny
              ((if CollidesAny (p.1 + step.1, p.2) r walls then p.1 else p.1 + step.1),
                p.2 + step.2) r walls
          then p.2 else p.2 + step.2))) ∧
    (CollidesAny (1, 0) (3/10) [⟨⟨1/2, -1, 1, 2⟩, true⟩] = true ∧
     CollidesAny (0, 1) (3/10) [⟨⟨1/2, -1, 1, 2⟩, true⟩] = false ∧
     resolveMove (0, 0) (1, 1) (3/10) [⟨⟨1/2, -1, 1, 2⟩, true⟩] = (0, 1)) := by
  refine ⟨?_, ?_, ?_, ?_⟩
  · intro p step r walls
    simp only [resolveMove]
    split_ifs <;> rfl
  · norm_num [CollidesAny, CircleRectIntersect, clampf, List.any_cons, List.any_nil]
  · norm_num [CollidesAny, CircleRectIntersect, clampf, List.any_cons, List.any_nil]
  · norm_num [resolveMove, CollidesAny, CircleRectIntersect, clampf,
      List.any_cons, List.any_nil]

/-! ## C3: particle pool invariants -/

theorem updateLoopF_length_le (dt : ℚ) :
    ∀ (fuel : ℕ) (l : List Particle), (updateLoopF dt fuel l).length ≤ l.length := by
  intro fuel
  induction fuel with
  | zero => intro l; simp [updateLoopF]
  | succ n ih =>
    intro l
    match l with
    | [] => simp [updateLoopF]
    | p :: rest =>
      show (updateLoopF dt (n+1) (p :: rest)).length ≤ (p :: rest).length
      rw [updateLoopF.eq_def]
      simp only []
      split_ifs with hlife
      · match rest with
        | [] => simp
        | q :: qs =>
          have h1 := ih (((q :: qs).getLast (by simp)) :: (q :: qs).dropLast)
          simp only [List.length_cons, List.length_dropLast] at h1 ⊢
          omega
      · have h1 := ih rest
        simp only [List.length_cons]
        omega

theorem updateLoopF_life_pos (dt : ℚ) :
    ∀ (fuel : ℕ) (l : List Particle), ∀ p ∈ updateLoopF dt fuel l, 0 < p.life := by
  intro fuel
  induction fuel with
  | zero => intro l; simp [updateLoopF]
  | succ n ih =>
    intro l
    match l with
    | [] => simp [updateLoopF]
    | p :: rest =>
      show ∀ p' ∈ updateLoopF dt (n+1) (p :: rest), 0 < p'.life
      rw [updateLoopF.eq_def]
      simp only []
      split_ifs with hlife
      · match rest with
        | [] => simp
        | q :: qs => exact ih _
      · intro x hx
        rcases List.mem_cons.mp hx with rfl | hx'
        · linarith [not_le.mp hlife]
        · exact ih rest x hx'

theorem emitLoop_length_le (rng : ℕ → ℕ) (e : ℚ × ℚ × ℚ) (maxP : ℕ) :
    ∀ (n k : ℕ) (ps : List Particle), ps.length ≤ maxP →
      (emitLoop rng e maxP n k ps).1.length ≤ maxP := by
  intro n
  induction n with
  | zero => intro k ps h; simpa [emitLoop] using h
  | succ n ih =>
    intro k ps h
    rw [emitLoop]
    split_ifs with hlt
    · exact ih _ _ (by simp; omega)
    · simpa using h

theorem particleUpdate_inv (rng : ℕ → ℕ) (ps : ParticleSystem) (k : ℕ)
    (e : ℚ × ℚ × ℚ) (dt : ℚ) (h : ps.particles.length ≤ ps.maxParticles) :
    (ParticleSystem_Update rng ps k e dt).1.particles.length ≤ ps.maxParticles ∧
    (ParticleSystem_Update rng ps k e dt).1.maxParticles = ps.maxParticles ∧
    ∀ p ∈ (ParticleSystem_Update rng ps k e dt).1.particles, 0 < p.life := by
  unfold ParticleSystem_Update
  refine ⟨?_, rfl, ?_⟩
  · exact le_trans (updateLoopF_length_le dt _ _) (emitLoop_length_le rng e _ _ _ _ h)
  · exact updateLoopF_life_pos dt _ _

theorem runParticleUpdates_inv (rng : ℕ → ℕ) :
    ∀ (us : List ((ℚ × ℚ × ℚ) × ℚ)) (s : ParticleSystem × ℕ),
      s.1.particles.length ≤ s.1.maxParticles →
      (runParticleUpdates rng s us).1.particles.length ≤
          (runParticleUpdates rng s us).1.maxParticles ∧
      (runParticleUpdates rng s us).1.maxParticles = s.1.maxParticles ∧
      (us ≠ [] → ∀ p ∈ (runParticleUpdates rng s us).1.particles, 0 < p.life) := by
  intro us
  induction us with
  | nil => intro s h; exact ⟨h, rfl, by simp⟩
  | cons u rest ih =>
    intro s h
    have hstep := particleUpdate_inv rng s.1 s.2 u.1 u.2 h
    have hrec := ih (ParticleSystem_Update rng s.1 s.2 u.1 u.2) (by
      rw [hstep.2.1]; exact hstep.1)
    simp only [runParticleUpdates, List.foldl_cons] at *
    refine ⟨hrec.1, by rw [hrec.2.1, hstep.2.1], fun _ => ?_⟩
    rcases Decidable.em (rest = []) with hr | hr
    · subst hr
      simpa [runParticleUpdates] using hstep.2.2
    · exact hrec.2.2 hr

/-- C3: for every particle system created with capacity `maxParticles`,
after any sequence of `ParticleSystem_Update` calls (any emitter positions,
any non-negative time deltas) the active count stays within
`0 ≤ activeParticles ≤ maxParticles`, and a particle whose life reached 0 or
below is removed by the swap-with-last loop during that same update, so
every particle still active after an update has strictly positive life. -/
theorem particle_pool_invariant (rng : ℕ → ℕ) (maxP k0 : ℕ)
    (us : List ((ℚ × ℚ × ℚ) × ℚ)) (hdt : ∀ u ∈ us, 0 ≤ u.2) :
    (runParticleUpdates rng (ParticleSystem_Create maxP, k0) us).1.activeParticles ≤ maxP ∧
    (us ≠ [] → ∀ p ∈ (runParticleUpdates rng (ParticleSystem_Create maxP, k0) us).1.particles,
      0 < p.life) := by
  have h := runParticleUpdates_inv rng us (ParticleSystem_Create maxP, k0)
    (by simp [ParticleSystem_Create])
  have hmax : (runParticleUpdates rng (ParticleSystem_Create maxP, k0) us).1.maxParticles
      = maxP := h.2.1
  exact ⟨le_trans h.1 (le_of_eq hmax), h.2.2⟩

/-- C3 witness: one update on a fresh two-particle pool. -/
theorem particle_pool_invariant_witness :
    (runParticleUpdates (fun _ => 0) (ParticleSystem_Create 2, 0)
        [((0, 0, 0), 1)]).1.activeParticles ≤ 2 ∧
    (([((0, 0, 0), 1)] : List ((ℚ × ℚ × ℚ) × ℚ)) ≠ [] →
      ∀ p ∈ (runParticleUpdates (fun _ => 0) (ParticleSystem_Create 2, 0)
        [((0, 0, 0), 1)]).1.particles, 0 < p.life) :=
  particle_pool_invariant (fun _ => 0) 2 0 [((0, 0, 0), 1)] (by norm_num)

/-! ## C9: spawn placement -/

theorem pickCell_mem (rng : ℕ → ℕ) (m : Maze) (k : ℕ)
    (hw : 1 ≤ m.width) (hh : 1 ≤ m.height) :
    (pickCell rng m k).1 ∈ cellFinset m.width m.height := by
  rw [mem_cellFinset]
  unfold pickCell
  have h1 : rng k % m.width.toNat < m.width.toNat := Nat.mod_lt _ (by omega)
  have h2 : rng (k+1) % m.height.toNat < m.height.toNat := Nat.mod_lt _ (by omega)
  constructor
  · positivity
  refine ⟨?_, by positivity, ?_⟩
  · simp only []
    omega
  · simp only []
    omega

theorem spawnAttempts_mem (m : Maze) (sqrtF : ℚ → ℚ) (rng : ℕ → ℕ)
    (prev : List (ℚ × ℚ)) (playerStart : ℚ × ℚ)
    (hw : 1 ≤ m.width) (hh : 1 ≤ m.height) :
    ∀ (n : ℕ) (cell : ℤ × ℤ) (k : ℕ),
      (spawnAttempts m sqrtF rng prev playerStart (n + 1) cell k).1 ∈
        cellFinset m.width m.height := by
  intro n
  induction n with
  | zero =>
    intro cell k
    rw [spawnAttempts]
    split_ifs with hok
    · exact pickCell_mem rng m k hw hh
    · rw [spawnAttempts]
      exact pickCell_mem rng m k hw hh
  | succ n ih =>
    intro cell k
    rw [spawnAttempts]
    split_ifs with hok
    · exact pickCell_mem rng m k hw hh
    · exact ih _ _

theorem spawnRelaxed_mem (m : Maze) (sqrtF : ℚ → ℚ) (rng : ℕ → ℕ)
    (playerStart : ℚ × ℚ) (hw : 1 ≤ m.width) (hh : 1 ≤ m.height) :
    ∀ (n : ℕ) (cell : ℤ × ℤ) (k : ℕ),
      (spawnRelaxed m sqrtF rng playerStart (n + 1) cell k).1 ∈
        cellFinset m.width m.height := by
  intro n
  induction n with
  | zero =>
    intro cell k
    rw [spawnRelaxed]
    split_ifs with hok
    · exact pickCell_mem rng m k hw hh
    · rw [spawnRelaxed]
      exact pickCell_mem rng m k hw hh
  | succ n ih =>
    intro cell k
    rw [spawnRelaxed]
    split_ifs with hok
    · exact pickCell_mem rng m k hw hh
    · exact ih _ _

theorem placeOne_mem (m : Maze) (sqrtF : ℚ → ℚ) (rng : ℕ → ℕ)
    (playerStart : ℚ × ℚ) (prev : List (ℚ × ℚ)) (k : ℕ)
    (hw : 1 ≤ m.width) (hh : 1 ≤ m.height) :
    (placeOne m sqrtF rng playerStart prev k).1 ∈ cellFinset m.width m.height := by
  unfold placeOne
  dsimp only
  split_ifs with h1 h2
  · exact spawnAttempts_mem m sqrtF rng prev playerStart hw hh 199 _ _
  · exact spawnRelaxed_mem m sqrtF rng playerStart hw hh 49 _ _
  · exact pickCell_mem rng m _ hw hh

/-- C9: pursuer spawn placement (200 constrained attempts, then 50 relaxed
attempts, then one unconstrained pick) is a total bounded computation, and
the cell assigned to every pursuer always lies inside the grid. -/
theorem spawn_placement_in_grid (m : Maze) (sqrtF : ℚ → ℚ) (rng : ℕ → ℕ)
    (playerStart : ℚ × ℚ) (hw : 1 ≤ m.width) (hh : 1 ≤ m.height) :
    ∀ (count : ℕ) (prev : List (ℚ × ℚ)) (k : ℕ),
      ∀ cell ∈ (placeChars m sqrtF rng playerStart count prev k).1,
        0 ≤ cell.1 ∧ cell.1 < m.width ∧ 0 ≤ cell.2 ∧ cell.2 < m.height := by
  intro count
  induction count with
  | zero => intro prev k cell hcell; simp [placeChars] at hcell
  | succ n ih =>
    intro prev k cell hcell
    rw [placeChars] at hcell
    rcases List.mem_cons.mp hcell with rfl | hmem
    · exact mem_cellFinset.mp (placeOne_mem m sqrtF rng playerStart prev k hw hh)
    · exact ih _ _ cell hmem

/-- C9 witness: placement of one pursuer on a concrete 2x2 maze. -/
theorem spawn_placement_in_grid_witness :
    1 ≤ (Maze.mk 2 2 (List.replicate 4 MAZE_ALL) 1 (0,0) (1,1)).width ∧
    1 ≤ (Maze.mk 2 2 (List.replicate 4 MAZE_ALL) 1 (0,0) (1,1)).height ∧
    (∀ cell ∈ (placeChars (Maze.mk 2 2 (List.replicate 4 MAZE_ALL) 1 (0,0) (1,1))
        (fun _ => 0) (fun _ => 0) (0, 0) 1 [] 0).1,
      0 ≤ cell.1 ∧ cell.1 < (Maze.mk 2 2 (List.replicate 4 MAZE_ALL) 1 (0,0) (1,1)).width ∧
      0 ≤ cell.2 ∧ cell.2 < (Maze.mk 2 2 (List.replicate 4 MAZE_ALL) 1 (0,0) (1,1)).height) :=
  ⟨by norm_num, by norm_num,
    spawn_placement_in_grid (Maze.mk 2 2 (List.replicate 4 MAZE_ALL) 1 (0,0) (1,1))
      (fun _ => 0) (fun _ => 0) (0, 0) (by norm_num) (by norm_num) 1 [] 0⟩

/-! ## C8: capture check -/

theorem chaseLoop_nil (sqrtF cosF sinF : ℚ → ℚ) (rng : ℕ → ℕ) (walls : List WallRect)
    (dt : ℚ) (player : ℚ × ℚ) (k : ℕ) :
    chaseLoop sqrtF cosF sinF rng walls dt player [] k = ([], GameState.PLAYING, k) := rfl

/-- C8: in the pursuer loop of a `PLAYING` frame, pursuers are moved and
checked in order; the first pursuer whose circle intersects the player's
circle (squared distance at most the squared radius sum, boundary inclusive)
flips the state to `GAMEOVER` and the loop breaks, so the pursuers after it
are neither moved nor checked that frame. -/
theorem capture_first_pursuer :
    (∀ (sqrtF cosF sinF : ℚ → ℚ) (rng : ℕ → ℕ) (walls : List WallRect) (dt : ℚ)
        (player : ℚ × ℚ) (k : ℕ) (pre post : List ScaryCharacter) (c : ScaryCharacter),
      (chaseLoop sqrtF cosF sinF rng walls dt player pre k).2.1 = GameState.PLAYING →
      CircleCircleIntersect player PLAYER_RADIUS
        (moveScaryChar sqrtF cosF sinF rng walls dt player c
          (chaseLoop sqrtF cosF sinF rng walls dt player pre k).2.2).1.position
        (moveScaryChar sqrtF cosF sinF rng walls dt player c
          (chaseLoop sqrtF cosF sinF rng walls dt player pre k).2.2).1.radius = true →
      chaseLoop sqrtF cosF sinF rng walls dt player (pre ++ c :: post) k =
        ((chaseLoop sqrtF cosF sinF rng walls dt player pre k).1 ++
            (moveScaryChar sqrtF cosF sinF rng walls dt player c
              (chaseLoop sqrtF cosF sinF rng walls dt player pre k).2.2).1 :: post,
          GameState.GAMEOVER,
          (moveScaryChar sqrtF cosF sinF rng walls dt player c
            (chaseLoop sqrtF cosF sinF rng walls dt player pre k).2.2).2)) ∧
    (∀ (c1 c2 : ℚ × ℚ) (r1 r2 : ℚ),
      (c1.1 - c2.1) * (c1.1 - c2.1) + (c1.2 - c2.2) * (c1.2 - c2.2) = (r1 + r2) * (r1 + r2) →
      CircleCircleIntersect c1 r1 c2 r2 = true) := by
  constructor
  · intro sqrtF cosF sinF rng walls dt player k pre
    induction pre generalizing k with
    | nil =>
      intro post c hplay hcap
      rw [chaseLoop_nil] at hcap ⊢
      simp only [List.nil_append]
      rw [chaseLoop]
      simp only [hcap, if_pos]
    | cons p pre' ih =>
      intro post c hplay hcap
      rcases hcond : CircleCircleIntersect player PLAYER_RADIUS
          (moveScaryChar sqrtF cosF sinF rng walls dt player p k).1.position
          (moveScaryChar sqrtF cosF sinF rng walls dt player p k).1.radius with _ | _
      · have hsplit : chaseLoop sqrtF cosF sinF rng walls dt player (p :: pre') k =
            ((moveScaryChar sqrtF cosF sinF rng walls dt player p k).1 ::
              (chaseLoop sqrtF cosF sinF rng walls dt player pre'
                (moveScaryChar sqrtF cosF sinF rng walls dt player p k).2).1,
             (chaseLoop sqrtF cosF sinF rng walls dt player pre'
                (moveScaryChar sqrtF cosF sinF rng walls dt player p k).2).2.1,
             (chaseLoop sqrtF cosF sinF rng walls dt player pre'
                (moveScaryChar sqrtF cosF sinF rng walls dt player p k).2).2.2) := by
          rw [chaseLoop]
          simp only [hcond, Bool.false_eq_true, if_false]
        rw [hsplit] at hplay hcap
        simp only [Prod.fst, Prod.snd] at hplay hcap
        have hrec := ih (moveScaryChar sqrtF cosF sinF rng walls dt player p k).2 post c
          hplay hcap
        rw [List.cons_append, chaseLoop]
        simp only [hcond, Bool.false_eq_true, if_false, hrec, hsplit, List.cons_append]
      · rw [chaseLoop] at hplay
        simp [hcond] at hplay
  · intro c1 c2 r1 r2 hdist
    unfold CircleCircleIntersect
    simp only [decide_eq_true_eq]
    exact le_of_eq hdist

/-- C8 witness: a pursuer standing on the player flips the state to
`GAMEOVER` and the pursuer after it in the list is left untouched. -/
theorem capture_first_pursuer_witness :
    chaseLoop (fun _ => 0) (fun _ => 0) (fun _ => 0) (fun _ => 0) [] 1 (0, 0)
        ([] ++ ScaryCharacter.mk (0, 0) (14/5) (7/20) (11/5) ::
          [ScaryCharacter.mk (9, 9) (14/5) (7/20) (11/5)]) 0 =
      ((chaseLoop (fun _ => 0) (fun _ => 0) (fun _ => 0) (fun _ => 0) [] 1 (0, 0) [] 0).1 ++
          (moveScaryChar (fun _ => 0) (fun _ => 0) (fun _ => 0) (fun _ => 0) [] 1 (0, 0)
            (ScaryCharacter.mk (0, 0) (14/5) (7/20) (11/5))
            (chaseLoop (fun _ => 0) (fun _ => 0) (fun _ => 0) (fun _ => 0) [] 1 (0, 0)
              [] 0).2.2).1 :: [ScaryCharacter.mk (9, 9) (14/5) (7/20) (11/5)],
        GameState.GAMEOVER,
        (moveScaryChar (fun _ => 0) (fun _ => 0) (fun _ => 0) (fun _ => 0) [] 1 (0, 0)
          (ScaryCharacter.mk (0, 0) (14/5) (7/20) (11/5))
          (chaseLoop (fun _ => 0) (fun _ => 0) (fun _ => 0) (fun _ => 0) [] 1 (0, 0)
            [] 0).2.2).2) :=
  capture_first_pursuer.1 (fun _ => 0) (fun _ => 0) (fun _ => 0) (fun _ => 0) [] 1 (0, 0) 0
    [] [ScaryCharacter.mk (9, 9) (14/5) (7/20) (11/5)]
    (ScaryCharacter.mk (0, 0) (14/5) (7/20) (11/5)) rfl
    (by norm_num [chaseLoop, moveScaryChar, CircleCircleIntersect, PLAYER_RADIUS])

/-! ## C5: wall rectangle emission -/

theorem cellRects_length_le (m : Maze) (c : ℤ × ℤ) : (cellRects m c).length ≤ 4 := by
  unfold cellRects
  dsimp only
  split_ifs <;> simp

theorem wallRectsGo_eq_flatMap (m : Maze) (maxRects : ℕ) :
    ∀ (cs : List (ℤ × ℤ)) (count : ℕ), count + 4 * cs.length ≤ maxRects →
      wallRectsGo m maxRects cs count = cs.flatMap (cellRects m) := by
  intro cs
  induction cs with
  | nil => intro count h; simp [wallRectsGo]
  | cons c cs' ih =>
    intro count h
    rw [wallRectsGo, if_pos (by simp at h; omega), List.flatMap_cons]
    congr 1
    refine ih _ ?_
    have := cellRects_length_le m c
    simp only [List.length_cons] at h
    omega

theorem cellRects_eq_spec (m : Maze) (c : ℤ × ℤ) : cellRects m c = specCellRects m c := by
  unfold cellRects specCellRects segRect Maze_CellToWorld
  dsimp only
  split_ifs <;>
    simp only [List.append_nil, List.nil_append, List.cons_append, List.singleton_append,
      List.cons.injEq, WallRect.mk.injEq, Rectangle.mk.injEq, and_true, true_and] <;>
    (repeat' apply And.intro) <;>
    first
      | rfl
      | ring

theorem gridCells_length (m : Maze) :
    (gridCells m).length = m.height.toNat * m.width.toNat := by
  unfold gridCells
  rw [List.length_flatMap]
  have h2 : List.map
      (List.length ∘ (fun y : ℕ => (List.range m.width.toNat).map
        (fun x : ℕ => ((x : ℤ), (y : ℤ)))))
      (List.range m.height.toNat) =
      List.replicate m.height.toNat m.width.toNat := by
    refine List.eq_replicate_iff.mpr ⟨by simp, ?_⟩
    intro b hb
    simp only [List.mem_map, Function.comp] at hb
    obtain ⟨y, _, hy⟩ := hb
    simp only [List.length_map, List.length_range] at hy
    omega
  rw [h2, List.sum_replicate, smul_eq_mul]

/-- C5: with a sufficient rectangle budget (the callers pass
`width*height*4`), `Maze_GetWallRects` emits, in cell order, exactly the
spec-side list: one rectangle per present North wall and per present West
wall of every cell, plus the East wall of last-column cells and the South
wall of last-row cells, each rectangle the wall segment extended
symmetrically by half the fixed thickness — so each shared wall is emitted
exactly once and nothing else is emitted. -/
theorem wall_rects_emission (m : Maze) (maxRects : ℕ)
    (hbudget : 4 * (m.width.toNat * m.height.toNat) ≤ maxRects) :
    Maze_GetWallRects m maxRects = specWallSegments m := by
  unfold Maze_GetWallRects specWallSegments
  rw [wallRectsGo_eq_flatMap m maxRects (gridCells m) 0
    (by rw [gridCells_length, Nat.mul_comm m.height.toNat m.width.toNat]; omega)]
  rw [show cellRects m = specCellRects m from funext (cellRects_eq_spec m)]

/-- C5 witness: the emission equality on a concrete all-walls 2x2 maze with
the caller's budget `width*height*4 = 16`. -/
theorem wall_rects_emission_witness :
    Maze_GetWallRects (Maze.mk 2 2 (List.replicate 4 MAZE_ALL) 1 (0,0) (1,1)) 16 =
      specWallSegments (Maze.mk 2 2 (List.replicate 4 MAZE_ALL) 1 (0,0) (1,1)) :=
  wall_rects_emission (Maze.mk 2 2 (List.replicate 4 MAZE_ALL) 1 (0,0) (1,1)) 16
    (by decide)

/-! ## C1/C10 groundwork: shuffle, neighbor choice, buffer updates -/

theorem listSwap_chain_perm : ∀ a < 4, ∀ b < 3, ∀ c < 2,
    (listSwap (listSwap (listSwap [MAZE_NORTH, MAZE_EAST, MAZE_SOUTH, MAZE_WEST] 3 a) 2 b) 1 c).Perm
      [MAZE_NORTH, MAZE_EAST, MAZE_SOUTH, MAZE_WEST] := by
  decide

theorem shuffle3_perm (r1 r2 r3 : ℕ) :
    (shuffle3 r1 r2 r3).Perm [MAZE_NORTH, MAZE_EAST, MAZE_SOUTH, MAZE_WEST] :=
  listSwap_chain_perm (r1 % 4) (Nat.mod_lt _ (by norm_num))
    (r2 % 3) (Nat.mod_lt _ (by norm_num)) (r3 % 2) (Nat.mod_lt _ (by norm_num))

theorem grn_some {m : Maze} {x y : ℤ} {visited : List Bool} {rng : ℕ → ℕ} {k d : ℕ}
    (h : GetRandomNeighbor m x y visited rng k = some d) :
    d ∈ [MAZE_NORTH, MAZE_EAST, MAZE_SOUTH, MAZE_WEST] ∧
    IsValidUnvisited m (x + (dirOffset d).1) (y + (dirOffset d).2) visited = true := by
  unfold GetRandomNeighbor at h
  have h1 := List.mem_of_find?_eq_some h
  have h2 := List.find?_some h
  exact ⟨(shuffle3_perm _ _ _).mem_iff.mp h1, h2⟩

theorem grn_none {m : Maze} {x y : ℤ} {visited : List Bool} {rng : ℕ → ℕ} {k : ℕ}
    (h : GetRandomNeighbor m x y visited rng k = none) :
    ∀ d ∈ [MAZE_NORTH, MAZE_EAST, MAZE_SOUTH, MAZE_WEST],
      IsValidUnvisited m (x + (dirOffset d).1) (y + (dirOffset d).2) visited = false := by
  unfold GetRandomNeighbor at h
  rw [List.find?_eq_none] at h
  intro d hd
  have := h d ((shuffle3_perm _ _ _).mem_iff.mpr hd)
  simpa using this

theorem isValidUnvisited_iff (m : Maze) (x y : ℤ) (vis : List Bool) :
    IsValidUnvisited m x y vis = true ↔
      ((x, y) ∈ cellFinset m.width m.height ∧ visAt m.width vis (x, y) = false) := by
  unfold IsValidUnvisited
  by_cases hc : ((x, y) : ℤ × ℤ) ∈ cellFinset m.width m.height
  · have h1 : ¬ CellIndex m x y < 0 := by
      have := CellIndex_nonneg_of_mem hc
      dsimp only at this
      omega
    rw [if_neg h1]
    have h2 : (CellIndex m x y).toNat = idxOf m.width ((x, y) : ℤ × ℤ) :=
      CellIndex_toNat_of_mem hc
    unfold visAt
    rw [h2]
    simp [hc, Bool.not_eq_true']
  · rw [if_pos (by rw [CellIndex_neg_of_not_mem hc]; omega)]
    simp [hc]

theorem visAt_set {w h : ℤ} {vis : List Bool} {c e : ℤ × ℤ} (b : Bool)
    (hc : c ∈ cellFinset w h) (he : e ∈ cellFinset w h)
    (hlen : vis.length = (w * h).toNat) :
    visAt w (vis.set (idxOf w e) b) c = if c = e then b else visAt w vis c := by
  unfold visAt
  by_cases hce : c = e
  · subst hce
    rw [if_pos rfl, getD_set_self _ _ _ _ (by rw [hlen]; exact idxOf_lt hc)]
  · rw [if_neg hce, getD_set_ne]
    intro heq
    exact hce (idxOf_inj hc he heq.symm)

theorem maskAt_set {w h : ℤ} {cells : List ℕ} {c e : ℤ × ℤ} (v : ℕ)
    (hc : c ∈ cellFinset w h) (he : e ∈ cellFinset w h)
    (hlen : cells.length = (w * h).toNat) :
    maskAt w (cells.set (idxOf w e) v) c = if c = e then v else maskAt w cells c := by
  unfold maskAt
  by_cases hce : c = e
  · subst hce
    rw [if_pos rfl, getD_set_self _ _ _ _ (by rw [hlen]; exact idxOf_lt hc)]
  · rw [if_neg hce, getD_set_ne]
    intro heq
    exact hce (idxOf_inj hc he heq.symm)

theorem maskAt_le_15 {w : ℤ} {cells : List ℕ} (hm : ∀ v ∈ cells, v ≤ 15) (c : ℤ × ℤ) :
    maskAt w cells c ≤ 15 := by
  unfold maskAt
  rw [List.getD_eq_getElem?_getD]
  rcases hv : cells[idxOf w c]? with _ | v
  · simp
  · simpa using hm v (List.getElem?_mem hv)

/-! Bit-level facts about clearing one of the four direction bits of a wall
mask that fits in the low four bits. -/

theorem bit_clear_self : ∀ mk < 16, ∀ d ∈ [MAZE_NORTH, MAZE_EAST, MAZE_SOUTH, MAZE_WEST],
    (mk &&& (255 ^^^ d)) &&& d = 0 := by decide

theorem bit_clear_other : ∀ mk < 16, ∀ d ∈ [MAZE_NORTH, MAZE_EAST, MAZE_SOUTH, MAZE_WEST],
    ∀ e ∈ [MAZE_NORTH, MAZE_EAST, MAZE_SOUTH, MAZE_WEST], d ≠ e →
    (mk &&& (255 ^^^ d)) &&& e = mk &&& e := by decide

theorem full_mask_wall : ∀ d ∈ [MAZE_NORTH, MAZE_EAST, MAZE_SOUTH, MAZE_WEST],
    15 &&& d ≠ 0 := by decide

theorem oppositeDir_mem : ∀ d ∈ [MAZE_NORTH, MAZE_EAST, MAZE_SOUTH, MAZE_WEST],
    oppositeDir d ∈ [MAZE_NORTH, MAZE_EAST, MAZE_SOUTH, MAZE_WEST] := by decide

theorem oppositeDir_involutive : ∀ d ∈ [MAZE_NORTH, MAZE_EAST, MAZE_SOUTH, MAZE_WEST],
    oppositeDir (oppositeDir d) = d := by decide

theorem dirOffset_opp : ∀ d ∈ [MAZE_NORTH, MAZE_EAST, MAZE_SOUTH, MAZE_WEST],
    dirOffset (oppositeDir d) = (-(dirOffset d).1, -(dirOffset d).2) := by decide

theorem dirOffset_ne_zero : ∀ d ∈ [MAZE_NORTH, MAZE_EAST, MAZE_SOUTH, MAZE_WEST],
    ¬((dirOffset d).1 = 0 ∧ (dirOffset d).2 = 0) := by decide

/-! Filter-cardinality bookkeeping for the carve step. -/

theorem filter_card_succ {α : Type} [DecidableEq α] (s : Finset α) (p q : α → Prop)
    [DecidablePred p] [DecidablePred q] (e : α) (he : e ∈ s) (hpe : ¬ p e) (hqe : q e)
    (hcong : ∀ x ∈ s, x ≠ e → (q x ↔ p x)) :
    (s.filter q).card = (s.filter p).card + 1 := by
  have h1 : s.filter q = insert e (s.filter p) := by
    ext x
    simp only [Finset.mem_filter, Finset.mem_insert]
    constructor
    · rintro ⟨hx, hq⟩
      by_cases hxe : x = e
      · exact Or.inl hxe
      · exact Or.inr ⟨hx, (hcong x hx hxe).mp hq⟩
    · rintro (rfl | ⟨hx, hp⟩)
      · exact ⟨he, hqe⟩
      · refine ⟨hx, ?_⟩
        by_cases hxe : x = e
        · subst hxe
          exact absurd hp hpe
        · exact (hcong x hx hxe).mpr hp
  rw [h1, Finset.card_insert_of_not_mem]
  simp [hpe]

theorem filter_card_congr {α : Type} (s : Finset α) (p q : α → Prop)
    [DecidablePred p] [DecidablePred q] (hcong : ∀ x ∈ s, (q x ↔ p x)) :
    (s.filter q).card = (s.filter p).card := by
  congr 1
  exact Finset.filter_congr (by intro x hx; exact hcong x hx)

theorem unvis_add_vis (w h : ℤ) (vis : List Bool) :
    unvisCount w h vis + visCount w h vis = (cellFinset w h).card := by
  unfold unvisCount visCount
  have h1 : (cellFinset w h).filter (fun c => visAt w vis c = false) =
      (cellFinset w h).filter (fun c => ¬ (visAt w vis c = true)) := by
    refine Finset.filter_congr ?_
    intro x hx
    simp [Bool.not_eq_true]
  rw [h1, Nat.add_comm]
  exact Finset.filter_card_add_filter_neg_card_eq_card _

theorem cellFinset_card (w h : ℤ) : (cellFinset w h).card = w.toNat * h.toNat := by
  unfold cellFinset
  rw [Finset.card_product, Int.card_Icc, Int.card_Icc]
  congr 1 <;> omega

theorem mem_hEdgeSet {w h : ℤ} {e : ℤ × ℤ} (he : e ∈ hEdgeSet w h) :
    e ∈ cellFinset w h ∧ ((e.1 + 1, e.2) : ℤ × ℤ) ∈ cellFinset w h := by
  simp only [hEdgeSet, Finset.mem_product, Finset.mem_Icc] at he
  rw [mem_cellFinset, mem_cellFinset]
  simp only []
  omega

theorem mem_vEdgeSet {w h : ℤ} {e : ℤ × ℤ} (he : e ∈ vEdgeSet w h) :
    e ∈ cellFinset w h ∧ ((e.1, e.2 + 1) : ℤ × ℤ) ∈ cellFinset w h := by
  simp only [vEdgeSet, Finset.mem_product, Finset.mem_Icc] at he
  rw [mem_cellFinset, mem_cellFinset]
  simp only []
  omega

theorem mem_hEdgeSet_iff {w h : ℤ} {e : ℤ × ℤ} :
    e ∈ hEdgeSet w h ↔ e ∈ cellFinset w h ∧ ((e.1 + 1, e.2) : ℤ × ℤ) ∈ cellFinset w h := by
  constructor
  · exact mem_hEdgeSet
  · intro ⟨h1, h2⟩
    rw [mem_cellFinset] at h1 h2
    simp only [hEdgeSet, Finset.mem_product, Finset.mem_Icc]
    simp only [] at h1 h2
    omega

theorem mem_vEdgeSet_iff {w h : ℤ} {e : ℤ × ℤ} :
    e ∈ vEdgeSet w h ↔ e ∈ cellFinset w h ∧ ((e.1, e.2 + 1) : ℤ × ℤ) ∈ cellFinset w h := by
  constructor
  · exact mem_vEdgeSet
  · intro ⟨h1, h2⟩
    rw [mem_cellFinset] at h1 h2
    simp only [vEdgeSet, Finset.mem_product, Finset.mem_Icc]
    simp only [] at h1 h2
    omega

/-! ## The carve step: how the two buffer writes change masks and walls -/

theorem carve_maskAt (w h : ℤ) (cells : List ℕ) (c0 n0 : ℤ × ℤ)
    (hc0 : c0 ∈ cellFinset w h) (hn0 : n0 ∈ cellFinset w h) (hne : c0 ≠ n0)
    (hlen : cells.length = (w * h).toNat) (d : ℕ) :
    ∀ e ∈ cellFinset w h,
      maskAt w ((cells.set (idxOf w c0) (maskAt w cells c0 &&& (255 ^^^ d))).set
          (idxOf w n0)
          (maskAt w (cells.set (idxOf w c0) (maskAt w cells c0 &&& (255 ^^^ d))) n0 &&&
            (255 ^^^ oppositeDir d))) e =
        if e = n0 then maskAt w cells n0 &&& (255 ^^^ oppositeDir d)
        else if e = c0 then maskAt w cells c0 &&& (255 ^^^ d)
        else maskAt w cells e := by
  intro e he
  have hlen1 : (cells.set (idxOf w c0) (maskAt w cells c0 &&& (255 ^^^ d))).length =
      (w * h).toNat := by simp [hlen]
  by_cases hen : e = n0
  · rw [if_pos hen]
    rw [maskAt_set _ he hn0 hlen1, if_pos hen]
    rw [maskAt_set _ hn0 hc0 hlen, if_neg (fun hco => hne hco.symm)]
  · rw [if_neg hen]
    rw [maskAt_set _ he hn0 hlen1, if_neg hen]
    rw [maskAt_set _ he hc0 hlen]

theorem carve_wallAt (w h : ℤ) (cells : List ℕ) (c0 n0 : ℤ × ℤ)
    (hc0 : c0 ∈ cellFinset w h) (hn0 : n0 ∈ cellFinset w h) (hne : c0 ≠ n0)
    (hlen : cells.length = (w * h).toNat) (d : ℕ)
    (hd : d ∈ [MAZE_NORTH, MAZE_EAST, MAZE_SOUTH, MAZE_WEST])
    (hmask : ∀ v ∈ cells, v ≤ 15) :
    ∀ e ∈ cellFinset w h, ∀ d' ∈ [MAZE_NORTH, MAZE_EAST, MAZE_SOUTH, MAZE_WEST],
      wallAt w ((cells.set (idxOf w c0) (maskAt w cells c0 &&& (255 ^^^ d))).set
          (idxOf w n0)
          (maskAt w (cells.set (idxOf w c0) (maskAt w cells c0 &&& (255 ^^^ d))) n0 &&&
            (255 ^^^ oppositeDir d))) e d' =
        if e = c0 ∧ d' = d then false
        else if e = n0 ∧ d' = oppositeDir d then false
        else wallAt w cells e d' := by
  intro e he d' hd'
  have h16c : maskAt w cells c0 < 16 := by have := maskAt_le_15 (w := w) hmask c0; omega
  have h16n : maskAt w cells n0 < 16 := by have := maskAt_le_15 (w := w) hmask n0; omega
  unfold wallAt
  rw [carve_maskAt w h cells c0 n0 hc0 hn0 hne hlen d e he]
  by_cases hen : e = n0
  · rw [if_pos hen]
    have henc : ¬ (e = c0 ∧ d' = d) := fun hx => hne (hx.1 ▸ hen.symm ▸ rfl)
    rw [if_neg henc]
    by_cases hdo : d' = oppositeDir d
    · rw [if_pos ⟨hen, hdo⟩, hdo]
      rw [bit_clear_self _ h16n _ (oppositeDir_mem d hd)]
      simp
    · rw [if_neg (fun hx => hdo hx.2)]
      rw [bit_clear_other _ h16n _ (oppositeDir_mem d hd) d' hd' (fun hx => hdo hx.symm)]
      rw [hen]
  · rw [if_neg hen]
    by_cases hec : e = c0
    · rw [if_pos hec]
      by_cases hdd : d' = d
      · rw [if_pos ⟨hec, hdd⟩, hdd]
        rw [bit_clear_self _ h16c _ hd]
        simp
      · rw [if_neg (fun hx => hdd hx.2), if_neg (fun hx => hen hx.1), hec]
        rw [bit_clear_other _ h16c _ hd d' hd' (fun hx => hdd hx.symm)]
    · rw [if_neg hec, if_neg (fun hx => hec hx.1), if_neg (fun hx => hen hx.1)]

/-! ## adjOpen basics -/

theorem east_south_mem :
    MAZE_EAST ∈ [MAZE_NORTH, MAZE_EAST, MAZE_SOUTH, MAZE_WEST] ∧
    MAZE_SOUTH ∈ [MAZE_NORTH, MAZE_EAST, MAZE_SOUTH, MAZE_WEST] := by decide

theorem adjOpen_mono {w h : ℤ} {cells cells2 : List ℕ}
    (hmono : ∀ e ∈ cellFinset w h, ∀ d' ∈ [MAZE_NORTH, MAZE_EAST, MAZE_SOUTH, MAZE_WEST],
      wallAt w cells e d' = false → wallAt w cells2 e d' = false) :
    ∀ c d : ℤ × ℤ, adjOpen w h cells c d → adjOpen w h cells2 c d := by
  intro c d hadj
  obtain ⟨hc, hd, hcase⟩ := hadj
  refine ⟨hc, hd, ?_⟩
  rcases hcase with ⟨h1, h2⟩ | ⟨h1, h2⟩ | ⟨h1, h2⟩ | ⟨h1, h2⟩
  · exact Or.inl ⟨h1, hmono c hc MAZE_EAST east_south_mem.1 h2⟩
  · exact Or.inr (Or.inl ⟨h1, hmono c hc MAZE_SOUTH east_south_mem.2 h2⟩)
  · exact Or.inr (Or.inr (Or.inl ⟨h1, hmono d hd MAZE_EAST east_south_mem.1 h2⟩))
  · exact Or.inr (Or.inr (Or.inr ⟨h1, hmono d hd MAZE_SOUTH east_south_mem.2 h2⟩))

theorem adjOpen_symm (w h : ℤ) (cells : List ℕ) :
    ∀ c d : ℤ × ℤ, adjOpen w h cells c d → adjOpen w h cells d c := by
  intro c d hadj
  obtain ⟨hc, hd, hcase⟩ := hadj
  refine ⟨hd, hc, ?_⟩
  tauto

theorem reachIn_mono {w h : ℤ} {cells cells2 : List ℕ}
    (hmono : ∀ e ∈ cellFinset w h, ∀ d' ∈ [MAZE_NORTH, MAZE_EAST, MAZE_SOUTH, MAZE_WEST],
      wallAt w cells e d' = false → wallAt w cells2 e d' = false) :
    ∀ c d : ℤ × ℤ, ReachIn w h cells c d → ReachIn w h cells2 c d := by
  intro c d hr
  exact Relation.ReflTransGen.mono (adjOpen_mono hmono) hr

/-! ## Abstract carve transition lemmas -/

theorem carve_closed (w h : ℤ) (cells : List ℕ) (c0 n0 : ℤ × ℤ) (d : ℕ)
    (hd : d ∈ [MAZE_NORTH, MAZE_EAST, MAZE_SOUTH, MAZE_WEST])
    (hc0 : c0 ∈ cellFinset w h) (hn0 : n0 ∈ cellFinset w h)
    (hoff : n0 = (c0.1 + (dirOffset d).1, c0.2 + (dirOffset d).2))
    (hsym : ∀ c ∈ cellFinset w h, ∀ dd ∈ [MAZE_NORTH, MAZE_EAST, MAZE_SOUTH, MAZE_WEST],
      (c.1 + (dirOffset dd).1, c.2 + (dirOffset dd).2) ∈ cellFinset w h →
      wallAt w cells c dd =
        wallAt w cells (c.1 + (dirOffset dd).1, c.2 + (dirOffset dd).2) (oppositeDir dd))
    (hfull : maskAt w cells n0 = 15) :
    wallAt w cells c0 d = true ∧ wallAt w cells n0 (oppositeDir d) = true := by
  have h2 : wallAt w cells n0 (oppositeDir d) = true := by
    unfold wallAt
    rw [hfull]
    simp [full_mask_wall _ (oppositeDir_mem d hd)]
  have h1 : wallAt w cells c0 d = wallAt w cells n0 (oppositeDir d) := by
    have hs := hsym c0 hc0 d hd (by rw [← hoff]; exact hn0)
    rw [← hoff] at hs
    exact hs
  exact ⟨h1.trans h2, h2⟩

theorem carve_count_abstract (w h : ℤ) (cells cells2 : List ℕ) (c0 n0 : ℤ × ℤ) (d : ℕ)
    (hd : d ∈ [MAZE_NORTH, MAZE_EAST, MAZE_SOUTH, MAZE_WEST])
    (hc0 : c0 ∈ cellFinset w h) (hn0 : n0 ∈ cellFinset w h)
    (hoff : n0 = (c0.1 + (dirOffset d).1, c0.2 + (dirOffset d).2))
    (hchar : ∀ e ∈ cellFinset w h, ∀ d' ∈ [MAZE_NORTH, MAZE_EAST, MAZE_SOUTH, MAZE_WEST],
      wallAt w cells2 e d' =
        if e = c0 ∧ d' = d then false
        else if e = n0 ∧ d' = oppositeDir d then false
        else wallAt w cells e d')
    (hcl0 : wallAt w cells c0 d = true)
    (hcln : wallAt w cells n0 (oppositeDir d) = true) :
    openEdgeCount w h cells2 = openEdgeCount w h cells + 1 := by
  have hE : MAZE_EAST ∈ [MAZE_NORTH, MAZE_EAST, MAZE_SOUTH, MAZE_WEST] := by decide
  have hS : MAZE_SOUTH ∈ [MAZE_NORTH, MAZE_EAST, MAZE_SOUTH, MAZE_WEST] := by decide
  unfold openEdgeCount
  fin_cases hd
  · -- d = MAZE_NORTH: the edge (n0, n0 + (0,1)) = (n0, c0) of the vertical set opens
    have hdN : dirOffset MAZE_NORTH = ((0 : ℤ), (-1 : ℤ)) := by decide
    have hoff' : n0 = ((c0.1, c0.2 - 1) : ℤ × ℤ) := by
      rw [hoff, hdN]
      exact Prod.ext (by ring) (by ring)
    have hc0n : c0 = ((n0.1, n0.2 + 1) : ℤ × ℤ) := by
      rw [hoff']
      exact Prod.ext rfl (by omega)
    have hH : ((hEdgeSet w h).filter (fun c => wallAt w cells2 c MAZE_EAST = false)).card =
        ((hEdgeSet w h).filter (fun c => wallAt w cells c MAZE_EAST = false)).card := by
      refine filter_card_congr _ _ _ ?_
      intro x hx
      rw [hchar x (mem_hEdgeSet hx).1 MAZE_EAST hE,
        if_neg (fun hc => by exact absurd hc.2 (by decide)),
        if_neg (fun hc => by exact absurd hc.2 (by decide))]
    have hV : ((vEdgeSet w h).filter (fun c => wallAt w cells2 c MAZE_SOUTH = false)).card =
        ((vEdgeSet w h).filter (fun c => wallAt w cells c MAZE_SOUTH = false)).card + 1 := by
      refine filter_card_succ _ _ _ n0 ?_ ?_ ?_ ?_
      · exact mem_vEdgeSet_iff.mpr ⟨hn0, by rw [← hc0n]; exact hc0⟩
      · have : oppositeDir MAZE_NORTH = MAZE_SOUTH := by decide
        rw [← this, hcln]
        simp
      · rw [hchar n0 hn0 MAZE_SOUTH hS,
          if_neg (fun hc => by
            have hne : n0 ≠ c0 := by
              rw [hoff']
              intro hcon
              have h5 := congrArg Prod.snd hcon
              dsimp only at h5
              omega
            exact hne hc.1),
          if_pos ⟨rfl, by decide⟩]
      · intro x hx hxe
        rw [hchar x (mem_vEdgeSet hx).1 MAZE_SOUTH hS,
          if_neg (fun hc => by exact absurd hc.2 (by decide)),
          if_neg (fun hc => hxe hc.1)]
    rw [hH, hV]
    omega
  · -- d = MAZE_EAST: the edge (c0, c0 + (1,0)) = (c0, n0) of the horizontal set opens
    have hdE : dirOffset MAZE_EAST = ((1 : ℤ), (0 : ℤ)) := by decide
    have hoff' : n0 = ((c0.1 + 1, c0.2) : ℤ × ℤ) := by
      rw [hoff, hdE]
      exact Prod.ext (by ring) (by ring)
    have hH : ((hEdgeSet w h).filter (fun c => wallAt w cells2 c MAZE_EAST = false)).card =
        ((hEdgeSet w h).filter (fun c => wallAt w cells c MAZE_EAST = false)).card + 1 := by
      refine filter_card_succ _ _ _ c0 ?_ ?_ ?_ ?_
      · exact mem_hEdgeSet_iff.mpr ⟨hc0, by rw [← hoff']; exact hn0⟩
      · rw [hcl0]
        simp
      · rw [hchar c0 hc0 MAZE_EAST hE, if_pos ⟨rfl, rfl⟩]
      · intro x hx hxe
        rw [hchar x (mem_hEdgeSet hx).1 MAZE_EAST hE,
          if_neg (fun hc => hxe hc.1),
          if_neg (fun hc => by exact absurd hc.2 (by decide))]
    have hV : ((vEdgeSet w h).filter (fun c => wallAt w cells2 c MAZE_SOUTH = false)).card =
        ((vEdgeSet w h).filter (fun c => wallAt w cells c MAZE_SOUTH = false)).card := by
      refine filter_card_congr _ _ _ ?_
      intro x hx
      rw [hchar x (mem_vEdgeSet hx).1 MAZE_SOUTH hS,
        if_neg (fun hc => by exact absurd hc.2 (by decide)),
        if_neg (fun hc => by exact absurd hc.2 (by decide))]
    rw [hH, hV]
    omega
  · -- d = MAZE_SOUTH: the edge (c0, c0 + (0,1)) = (c0, n0) of the vertical set opens
    have hdS : dirOffset MAZE_SOUTH = ((0 : ℤ), (1 : ℤ)) := by decide
    have hoff' : n0 = ((c0.1, c0.2 + 1) : ℤ × ℤ) := by
      rw [hoff, hdS]
      exact Prod.ext (by ring) (by ring)
    have hH : ((hEdgeSet w h).filter (fun c => wallAt w cells2 c MAZE_EAST = false)).card =
        ((hEdgeSet w h).filter (fun c => wallAt w cells c MAZE_EAST = false)).card := by
      refine filter_card_congr _ _ _ ?_
      intro x hx
      rw [hchar x (mem_hEdgeSet hx).1 MAZE_EAST hE,
        if_neg (fun hc => by exact absurd hc.2 (by decide)),
        if_neg (fun hc => by exact absurd hc.2 (by decide))]
    have hV : ((vEdgeSet w h).filter (fun c => wallAt w cells2 c MAZE_SOUTH = false)).card =
        ((vEdgeSet w h).filter (fun c => wallAt w cells c MAZE_SOUTH = false)).card + 1 := by
      refine filter_card_succ _ _ _ c0 ?_ ?_ ?_ ?_
      · exact mem_vEdgeSet_iff.mpr ⟨hc0, by rw [← hoff']; exact hn0⟩
      · rw [hcl0]
        simp
      · rw [hchar c0 hc0 MAZE_SOUTH hS, if_pos ⟨rfl, rfl⟩]
      · intro x hx hxe
        rw [hchar x (mem_vEdgeSet hx).1 MAZE_SOUTH hS,
          if_neg (fun hc => hxe hc.1),
          if_neg (fun hc => by exact absurd hc.2 (by decide))]
    rw [hH, hV]
    omega
  · -- d = MAZE_WEST: the edge (n0, n0 + (1,0)) = (n0, c0) of the horizontal set opens
    have hdW : dirOffset MAZE_WEST = ((-1 : ℤ), (0 : ℤ)) := by decide
    have hoff' : n0 = ((c0.1 - 1, c0.2) : ℤ × ℤ) := by
      rw [hoff, hdW]
      exact Prod.ext (by ring) (by ring)
    have hc0n : c0 = ((n0.1 + 1, n0.2) : ℤ × ℤ) := by
      rw [hoff']
      exact Prod.ext (by omega) rfl
    have hH : ((hEdgeSet w h).filter (fun c => wallAt w cells2 c MAZE_EAST = false)).card =
        ((hEdgeSet w h).filter (fun c => wallAt w cells c MAZE_EAST = false)).card + 1 := by
      refine filter_card_succ _ _ _ n0 ?_ ?_ ?_ ?_
      · exact mem_hEdgeSet_iff.mpr ⟨hn0, by rw [← hc0n]; exact hc0⟩
      · have : oppositeDir MAZE_WEST = MAZE_EAST := by decide
        rw [← this, hcln]
        simp
      · rw [hchar n0 hn0 MAZE_EAST hE,
          if_neg (fun hc => by
            have hne : n0 ≠ c0 := by
              rw [hoff']
              intro hcon
              have h5 := congrArg Prod.fst hcon
              dsimp only at h5
              omega
            exact hne hc.1),
          if_pos ⟨rfl, by decide⟩]
      · intro x hx hxe
        rw [hchar x (mem_hEdgeSet hx).1 MAZE_EAST hE,
          if_neg (fun hc => by exact absurd hc.2 (by decide)),
          if_neg (fun hc => hxe hc.1)]
    have hV : ((vEdgeSet w h).filter (fun c => wallAt w cells2 c MAZE_SOUTH = false)).card =
        ((vEdgeSet w h).filter (fun c => wallAt w cells c MAZE_SOUTH = false)).card := by
      refine filter_card_congr _ _ _ ?_
      intro x hx
      rw [hchar x (mem_vEdgeSet hx).1 MAZE_SOUTH hS,
        if_neg (fun hc => by exact absurd hc.2 (by decide)),
        if_neg (fun hc => by exact absurd hc.2 (by decide))]
    rw [hH, hV]
    omega

theorem carve_sym_abstract (w h : ℤ) (cells cells2 : List ℕ) (c0 n0 : ℤ × ℤ) (d : ℕ)
    (hd : d ∈ [MAZE_NORTH, MAZE_EAST, MAZE_SOUTH, MAZE_WEST])
    (hoff : n0 = (c0.1 + (dirOffset d).1, c0.2 + (dirOffset d).2))
    (hchar : ∀ e ∈ cellFinset w h, ∀ d' ∈ [MAZE_NORTH, MAZE_EAST, MAZE_SOUTH, MAZE_WEST],
      wallAt w cells2 e d' =
        if e = c0 ∧ d' = d then false
        else if e = n0 ∧ d' = oppositeDir d then false
        else wallAt w cells e d')
    (hsym : ∀ c ∈ cellFinset w h, ∀ dd ∈ [MAZE_NORTH, MAZE_EAST, MAZE_SOUTH, MAZE_WEST],
      (c.1 + (dirOffset dd).1, c.2 + (dirOffset dd).2) ∈ cellFinset w h →
      wallAt w cells c dd =
        wallAt w cells (c.1 + (dirOffset dd).1, c.2 + (dirOffset dd).2) (oppositeDir dd)) :
    ∀ c ∈ cellFinset w h, ∀ dd ∈ [MAZE_NORTH, MAZE_EAST, MAZE_SOUTH, MAZE_WEST],
      (c.1 + (dirOffset dd).1, c.2 + (dirOffset dd).2) ∈ cellFinset w h →
      wallAt w cells2 c dd =
        wallAt w cells2 (c.1 + (dirOffset dd).1, c.2 + (dirOffset dd).2) (oppositeDir dd) := by
  intro c hc dd hdd hcn
  rw [hchar c hc dd hdd,
    hchar (c.1 + (dirOffset dd).1, c.2 + (dirOffset dd).2) hcn (oppositeDir dd)
      (oppositeDir_mem dd hdd)]
  by_cases h1 : c = c0 ∧ dd = d
  · have hcn0 : ((c.1 + (dirOffset dd).1, c.2 + (dirOffset dd).2) : ℤ × ℤ) = n0 := by
      rw [h1.1, h1.2, hoff]
    have hdd2 : oppositeDir dd = oppositeDir d := by rw [h1.2]
    rw [if_pos h1]
    by_cases hA : ((c.1 + (dirOffset dd).1, c.2 + (dirOffset dd).2) : ℤ × ℤ) = c0 ∧
        oppositeDir dd = d
    · rw [if_pos hA]
    · rw [if_neg hA, if_pos ⟨hcn0, hdd2⟩]
  · by_cases h2 : c = n0 ∧ dd = oppositeDir d
    · have hdo := dirOffset_opp d hd
      have hinv := oppositeDir_involutive d hd
      have hcc0 : ((c.1 + (dirOffset dd).1, c.2 + (dirOffset dd).2) : ℤ × ℤ) = c0 := by
        rw [h2.1, h2.2, hoff, hdo]
        exact Prod.ext (by dsimp only <;> ring) (by dsimp only <;> ring)
      have hddd : oppositeDir dd = d := by rw [h2.2, hinv]
      rw [if_neg h1, if_pos h2, if_pos ⟨hcc0, hddd⟩]
    · rw [if_neg h1, if_neg h2]
      have hA : ¬ (((c.1 + (dirOffset dd).1, c.2 + (dirOffset dd).2) : ℤ × ℤ) = c0 ∧
          oppositeDir dd = d) := by
        rintro ⟨hA1, hA2⟩
        have hdd' : dd = oppositeDir d := by
          rw [← hA2, oppositeDir_involutive dd hdd]
        apply h2
        refine ⟨?_, hdd'⟩
        have hop := dirOffset_opp d hd
        have e1 : c.1 + (dirOffset dd).1 = c0.1 := congrArg Prod.fst hA1
        have e2 : c.2 + (dirOffset dd).2 = c0.2 := congrArg Prod.snd hA1
        rw [hdd', hop] at e1 e2
        dsimp only at e1 e2
        rw [hoff]
        exact Prod.ext (by dsimp only <;> omega) (by dsimp only <;> omega)
      have hB : ¬ (((c.1 + (dirOffset dd).1, c.2 + (dirOffset dd).2) : ℤ × ℤ) = n0 ∧
          oppositeDir dd = oppositeDir d) := by
        rintro ⟨hB1, hB2⟩
        have hdd' : dd = d := by
          rw [← oppositeDir_involutive dd hdd, hB2, oppositeDir_involutive d hd]
        apply h1
        refine ⟨?_, hdd'⟩
        have e1 : c.1 + (dirOffset dd).1 = n0.1 := congrArg Prod.fst hB1
        have e2 : c.2 + (dirOffset dd).2 = n0.2 := congrArg Prod.snd hB1
        rw [hdd'] at e1 e2
        rw [hoff] at e1 e2
        dsimp only at e1 e2
        exact Prod.ext (by omega) (by omega)
      rw [if_neg hA, if_neg hB]
      exact hsym c hc dd hdd hcn

theorem carve_adj_new (w h : ℤ) (cells2 : List ℕ) (c0 n0 : ℤ × ℤ) (d : ℕ)
    (hd : d ∈ [MAZE_NORTH, MAZE_EAST, MAZE_SOUTH, MAZE_WEST])
    (hc0 : c0 ∈ cellFinset w h) (hn0 : n0 ∈ cellFinset w h)
    (hoff : n0 = (c0.1 + (dirOffset d).1, c0.2 + (dirOffset d).2))
    (hq0 : wallAt w cells2 c0 d = false)
    (hqn : wallAt w cells2 n0 (oppositeDir d) = false) :
    adjOpen w h cells2 c0 n0 := by
  refine ⟨hc0, hn0, ?_⟩
  fin_cases hd
  · have hdN : dirOffset MAZE_NORTH = ((0 : ℤ), (-1 : ℤ)) := by decide
    have hoppN : oppositeDir MAZE_NORTH = MAZE_SOUTH := by decide
    refine Or.inr (Or.inr (Or.inr ⟨?_, ?_⟩))
    · rw [hoff, hdN]
      exact Prod.ext (by dsimp only <;> ring) (by dsimp only <;> ring)
    · rw [← hoppN]
      exact hqn
  · have hdE : dirOffset MAZE_EAST = ((1 : ℤ), (0 : ℤ)) := by decide
    refine Or.inl ⟨?_, hq0⟩
    rw [hoff, hdE]
    exact Prod.ext (by dsimp only <;> ring) (by dsimp only <;> ring)
  · have hdS : dirOffset MAZE_SOUTH = ((0 : ℤ), (1 : ℤ)) := by decide
    refine Or.inr (Or.inl ⟨?_, hq0⟩)
    rw [hoff, hdS]
    exact Prod.ext (by dsimp only <;> ring) (by dsimp only <;> ring)
  · have hdW : dirOffset MAZE_WEST = ((-1 : ℤ), (0 : ℤ)) := by decide
    have hoppW : oppositeDir MAZE_WEST = MAZE_EAST := by decide
    refine Or.inr (Or.inr (Or.inl ⟨?_, ?_⟩))
    · rw [hoff, hdW]
      exact Prod.ext (by dsimp only <;> ring) (by dsimp only <;> ring)
    · rw [← hoppW]
      exact hqn

/-! ## The DFS step preserves the invariant and decreases the measure -/

theorem notMem_filter_unvis {w h : ℤ} {vis : List Bool} {n0 : ℤ × ℤ}
    (hn0 : n0 ∈ cellFinset w h) (hn0vis : visAt w vis n0 = false) :
    1 ≤ unvisCount w h vis := by
  unfold unvisCount
  exact Finset.card_pos.mpr ⟨n0, Finset.mem_filter.mpr ⟨hn0, hn0vis⟩⟩

theorem carve_preserves (m : Maze) (s : GenState) (c0 n0 : ℤ × ℤ) (d : ℕ)
    (hw : 1 ≤ m.width) (hh : 1 ≤ m.height) (hinv : GenInv m s)
    (hd4 : d ∈ [MAZE_NORTH, MAZE_EAST, MAZE_SOUTH, MAZE_WEST])
    (hc0 : c0 ∈ cellFinset m.width m.height) (hn0 : n0 ∈ cellFinset m.width m.height)
    (hoff : n0 = (c0.1 + (dirOffset d).1, c0.2 + (dirOffset d).2))
    (hn0vis : visAt m.width s.visited n0 = false)
    (hc0vis : visAt m.width s.visited c0 = true)
    (hc0stk : c0 ∈ s.stack) :
    GenInv m
      { cells := (s.cells.set (idxOf m.width c0)
            (maskAt m.width s.cells c0 &&& (255 ^^^ d))).set (idxOf m.width n0)
          (maskAt m.width (s.cells.set (idxOf m.width c0)
              (maskAt m.width s.cells c0 &&& (255 ^^^ d))) n0 &&& (255 ^^^ oppositeDir d))
        visited := s.visited.set (idxOf m.width n0) true
        stack := n0 :: s.stack
        k := s.k + 3 } ∧
      2 * unvisCount m.width m.height (s.visited.set (idxOf m.width n0) true) +
          (n0 :: s.stack).length <
        2 * unvisCount m.width m.height s.visited + s.stack.length := by
  have hne0 : c0 ≠ n0 := by
    intro hcon
    rw [← hcon] at hn0vis
    rw [hc0vis] at hn0vis
    exact Bool.noConfusion hn0vis
  have hchar := carve_wallAt m.width m.height s.cells c0 n0 hc0 hn0 hne0 hinv.lenC d hd4
    hinv.maskLe
  have hmaskchar := carve_maskAt m.width m.height s.cells c0 n0 hc0 hn0 hne0 hinv.lenC d
  have hfull : maskAt m.width s.cells n0 = 15 := hinv.unvisFull n0 hn0 hn0vis
  have hclosed := carve_closed m.width m.height s.cells c0 n0 d hd4 hc0 hn0 hoff hinv.sym hfull
  have hcount2 := carve_count_abstract m.width m.height s.cells _ c0 n0 d hd4 hc0 hn0 hoff
    hchar hclosed.1 hclosed.2
  have hsym2 := carve_sym_abstract m.width m.height s.cells _ c0 n0 d hd4 hoff hchar hinv.sym
  have hmono : ∀ e ∈ cellFinset m.width m.height,
      ∀ d' ∈ [MAZE_NORTH, MAZE_EAST, MAZE_SOUTH, MAZE_WEST],
      wallAt m.width s.cells e d' = false →
      wallAt m.width ((s.cells.set (idxOf m.width c0)
          (maskAt m.width s.cells c0 &&& (255 ^^^ d))).set (idxOf m.width n0)
        (maskAt m.width (s.cells.set (idxOf m.width c0)
            (maskAt m.width s.cells c0 &&& (255 ^^^ d))) n0 &&& (255 ^^^ oppositeDir d)))
        e d' = false := by
    intro e he d' hd' hx
    rw [hchar e he d' hd']
    split_ifs <;> first | rfl | exact hx
  have hq0 := hchar c0 hc0 d hd4
  rw [if_pos ⟨rfl, rfl⟩] at hq0
  have hqn := hchar n0 hn0 (oppositeDir d) (oppositeDir_mem d hd4)
  rw [if_neg (fun hcc => hne0 hcc.1.symm), if_pos ⟨rfl, rfl⟩] at hqn
  have hvis2 : ∀ e ∈ cellFinset m.width m.height,
      visAt m.width (s.visited.set (idxOf m.width n0) true) e =
        if e = n0 then true else visAt m.width s.visited e :=
    fun e he => visAt_set true he hn0 hinv.lenV
  have hviscount : visCount m.width m.height (s.visited.set (idxOf m.width n0) true) =
      visCount m.width m.height s.visited + 1 := by
    refine filter_card_succ _ _ _ n0 hn0 ?_ ?_ ?_
    · rw [hn0vis]
      simp
    · rw [hvis2 n0 hn0, if_pos rfl]
    · intro xx hxx hxe
      rw [hvis2 xx hxx, if_neg hxe]
  have hunvis1 : 1 ≤ unvisCount m.width m.height s.visited := notMem_filter_unvis hn0 hn0vis
  have he1 := unvis_add_vis m.width m.height (s.visited.set (idxOf m.width n0) true)
  have he2 := unvis_add_vis m.width m.height s.visited
  have hvisle : visCount m.width m.height s.visited ≤ (cellFinset m.width m.height).card :=
    Finset.card_filter_le _ _
  refine ⟨⟨?_, ?_, ?_, ?_, ?_, ?_, ?_, ?_, ?_, ?_, ?_⟩, ?_⟩
  · simp [hinv.lenC]
  · simp [hinv.lenV]
  · have hm1 : ∀ v ∈ s.cells.set (idxOf m.width c0)
        (maskAt m.width s.cells c0 &&& (255 ^^^ d)), v ≤ 15 := by
      intro v hv
      rcases List.mem_or_eq_of_mem_set hv with hv' | rfl
      · exact hinv.maskLe v hv'
      · exact le_trans Nat.and_le_left (maskAt_le_15 hinv.maskLe _)
    intro v hv
    rcases List.mem_or_eq_of_mem_set hv with hv' | rfl
    · exact hm1 v hv'
    · exact le_trans Nat.and_le_left (maskAt_le_15 hm1 _)
  · intro c hcmem
    rcases List.mem_cons.mp hcmem with rfl | hcs
    · exact hn0
    · exact hinv.stackGrid c hcs
  · intro c hcmem
    rcases List.mem_cons.mp hcmem with rfl | hcs
    · rw [hvis2 c hn0, if_pos rfl]
    · have hcg := hinv.stackGrid c hcs
      rw [hvis2 c hcg]
      split_ifs with hcn
      · rfl
      · exact hinv.stackVis c hcs
  · have h00 : ((0, 0) : ℤ × ℤ) ∈ cellFinset m.width m.height := by
      rw [mem_cellFinset]
      dsimp only
      omega
    rw [hvis2 (0, 0) h00]
    split_ifs with hcn
    · rfl
    · exact hinv.originVis
  · exact hsym2
  · intro c hc hcf
    rw [hvis2 c hc] at hcf
    by_cases hcn : c = n0
    · rw [if_pos hcn] at hcf
      exact absurd hcf (by simp)
    · rw [if_neg hcn] at hcf
      have hcc0 : c ≠ c0 := by
        intro hcon
        rw [hcon, hc0vis] at hcf
        exact Bool.noConfusion hcf
      rw [hmaskchar c hc, if_neg hcn, if_neg hcc0]
      exact hinv.unvisFull c hc hcf
  · have hcnt := hinv.count
    rw [hcount2, hviscount]
    omega
  · intro c hc hcvis
    rw [hvis2 c hc] at hcvis
    by_cases hcn : c = n0
    · have hr0 : ReachIn m.width m.height ((s.cells.set (idxOf m.width c0)
          (maskAt m.width s.cells c0 &&& (255 ^^^ d))).set (idxOf m.width n0)
          (maskAt m.width (s.cells.set (idxOf m.width c0)
              (maskAt m.width s.cells c0 &&& (255 ^^^ d))) n0 &&&
            (255 ^^^ oppositeDir d))) (0, 0) c0 :=
        reachIn_mono hmono _ _ (hinv.reach c0 hc0 hc0vis)
      rw [hcn]
      exact hr0.tail (carve_adj_new m.width m.height _ c0 n0 d hd4 hc0 hn0 hoff hq0 hqn)
    · rw [if_neg hcn] at hcvis
      exact reachIn_mono hmono _ _ (hinv.reach c hc hcvis)
  · intro c hc hcvis hcstk d' hd' hnbr
    have hcn : c ≠ n0 := fun hcon => hcstk (by rw [hcon]; exact List.mem_cons_self _ _)
    have hcstk' : c ∉ s.stack := fun hcon => hcstk (List.mem_cons_of_mem _ hcon)
    rw [hvis2 c hc, if_neg hcn] at hcvis
    have hpp := hinv.popped c hc hcvis hcstk' d' hd' hnbr
    rw [hvis2 _ hnbr]
    split_ifs with hxx
    · rfl
    · exact hpp
  · simp only [List.length_cons]
    omega

theorem genStep_push_spec (m : Maze) (rng : ℕ → ℕ) (s : GenState)
    (hw : 1 ≤ m.width) (hh : 1 ≤ m.height)
    (x y : ℤ) (rest : List (ℤ × ℤ)) (d : ℕ)
    (hstk : s.stack = (x, y) :: rest)
    (hgrn : GetRandomNeighbor m x y s.visited rng s.k = some d)
    (hinv : GenInv m s) :
    GenInv m (genStep m rng s) ∧
      2 * unvisCount m.width m.height (genStep m rng s).visited +
          (genStep m rng s).stack.length <
        2 * unvisCount m.width m.height s.visited + s.stack.length := by
  have hgs := grn_some hgrn
  have hd4 := hgs.1
  have hvalid := (isValidUnvisited_iff m (x + (dirOffset d).1) (y + (dirOffset d).2)
    s.visited).mp hgs.2
  have hc0 : ((x, y) : ℤ × ℤ) ∈ cellFinset m.width m.height :=
    hinv.stackGrid (x, y) (by rw [hstk]; exact List.mem_cons_self _ _)
  have hn0 : ((x + (dirOffset d).1, y + (dirOffset d).2) : ℤ × ℤ) ∈
      cellFinset m.width m.height := hvalid.1
  have hn0vis : visAt m.width s.visited (x + (dirOffset d).1, y + (dirOffset d).2) = false :=
    hvalid.2
  have hc0vis : visAt m.width s.visited (x, y) = true :=
    hinv.stackVis (x, y) (by rw [hstk]; exact List.mem_cons_self _ _)
  have hcurr : (CellIndex m x y).toNat = idxOf m.width ((x, y) : ℤ × ℤ) :=
    CellIndex_toNat_of_mem hc0
  have hnext : (CellIndex m (x + (dirOffset d).1) (y + (dirOffset d).2)).toNat =
      idxOf m.width ((x + (dirOffset d).1, y + (dirOffset d).2) : ℤ × ℤ) :=
    CellIndex_toNat_of_mem hn0
  have hstep : genStep m rng s =
      { cells := (s.cells.set (idxOf m.width ((x, y) : ℤ × ℤ))
            (maskAt m.width s.cells ((x, y) : ℤ × ℤ) &&& (255 ^^^ d))).set
          (idxOf m.width ((x + (dirOffset d).1, y + (dirOffset d).2) : ℤ × ℤ))
          (maskAt m.width (s.cells.set (idxOf m.width ((x, y) : ℤ × ℤ))
              (maskAt m.width s.cells ((x, y) : ℤ × ℤ) &&& (255 ^^^ d)))
            ((x + (dirOffset d).1, y + (dirOffset d).2) : ℤ × ℤ) &&& (255 ^^^ oppositeDir d))
        visited := s.visited.set
          (idxOf m.width ((x + (dirOffset d).1, y + (dirOffset d).2) : ℤ × ℤ)) true
        stack := (x + (dirOffset d).1, y + (dirOffset d).2) :: s.stack
        k := s.k + 3 } := by
    unfold genStep
    rw [hstk]
    dsimp only
    rw [hgrn]
    dsimp only
    rw [hcurr, hnext]
    rfl
  rw [hstep]
  exact carve_preserves m s (x, y) (x + (dirOffset d).1, y + (dirOffset d).2) d hw hh hinv
    hd4 hc0 hn0 rfl hn0vis hc0vis (by rw [hstk]; exact List.mem_cons_self _ _)

theorem genStep_pop_spec (m : Maze) (rng : ℕ → ℕ) (s : GenState)
    (x y : ℤ) (rest : List (ℤ × ℤ))
    (hstk : s.stack = (x, y) :: rest)
    (hgrn : GetRandomNeighbor m x y s.visited rng s.k = none)
    (hinv : GenInv m s) :
    GenInv m (genStep m rng s) ∧
      2 * unvisCount m.width m.height (genStep m rng s).visited +
          (genStep m rng s).stack.length <
        2 * unvisCount m.width m.height s.visited + s.stack.length := by
  have hstep : genStep m rng s = { s with stack := rest, k := s.k + 3 } := by
    unfold genStep
    rw [hstk]
    dsimp only
    rw [hgrn]
  rw [hstep]
  have hgn := grn_none hgrn
  refine ⟨⟨hinv.lenC, hinv.lenV, hinv.maskLe, ?_, ?_, hinv.originVis, hinv.sym,
    hinv.unvisFull, hinv.count, hinv.reach, ?_⟩, ?_⟩
  · intro c hcmem
    exact hinv.stackGrid c (by rw [hstk]; exact List.mem_cons_of_mem _ hcmem)
  · intro c hcmem
    exact hinv.stackVis c (by rw [hstk]; exact List.mem_cons_of_mem _ hcmem)
  · intro c hc hcvis hcstk d' hd' hnbr
    by_cases hcxy : c = ((x, y) : ℤ × ℤ)
    · have hval := hgn d' hd'
      have hnv : ¬ (((x + (dirOffset d').1, y + (dirOffset d').2) : ℤ × ℤ) ∈
            cellFinset m.width m.height ∧
          visAt m.width s.visited (x + (dirOffset d').1, y + (dirOffset d').2) = false) := by
        rw [← isValidUnvisited_iff]
        simp [hval]
      have hnbr' : ((x + (dirOffset d').1, y + (dirOffset d').2) : ℤ × ℤ) ∈
          cellFinset m.width m.height := by
        rw [hcxy] at hnbr
        exact hnbr
      rcases hb : visAt m.width s.visited (x + (dirOffset d').1, y + (dirOffset d').2) with _ | _
      · exact absurd ⟨hnbr', hb⟩ hnv
      · rw [hcxy]
        exact hb
    · have hcstk2 : c ∉ s.stack := by
        rw [hstk]
        intro hcon
        rcases List.mem_cons.mp hcon with hcon' | hcon'
        · exact hcxy hcon'
        · exact hcstk hcon'
      exact hinv.popped c hc hcvis hcstk2 d' hd' hnbr
  · rw [hstk]
    simp only [List.length_cons]
    omega

theorem genStep_spec (m : Maze) (rng : ℕ → ℕ) (s : GenState)
    (hw : 1 ≤ m.width) (hh : 1 ≤ m.height)
    (hne : s.stack ≠ []) (hinv : GenInv m s) :
    GenInv m (genStep m rng s) ∧
      2 * unvisCount m.width m.height (genStep m rng s).visited +
          (genStep m rng s).stack.length <
        2 * unvisCount m.width m.height s.visited + s.stack.length := by
  rcases hstk : s.stack with _ | ⟨⟨x, y⟩, rest⟩
  · exact absurd hstk hne
  · rw [← hstk]
    rcases hgrn : GetRandomNeighbor m x y s.visited rng s.k with _ | d
    · exact genStep_pop_spec m rng s x y rest hstk hgrn hinv
    · exact genStep_push_spec m rng s hw hh x y rest d hstk hgrn hinv

theorem genLoop_spec (m : Maze) (rng : ℕ → ℕ)
    (hw : 1 ≤ m.width) (hh : 1 ≤ m.height) :
    ∀ (fuel : ℕ) (s : GenState), GenInv m s →
      2 * unvisCount m.width m.height s.visited + s.stack.length ≤ fuel →
      GenInv m (genLoop m rng fuel s) ∧ (genLoop m rng fuel s).stack = [] := by
  intro fuel
  induction fuel with
  | zero =>
    intro s hinv hm
    have : s.stack = [] := by
      have := List.length_eq_zero.mp (by omega : s.stack.length = 0)
      exact this
    exact ⟨hinv, this⟩
  | succ n ih =>
    intro s hinv hm
    rw [genLoop]
    split_ifs with hs
    · exact ⟨hinv, hs⟩
    · have hstep := genStep_spec m rng s hw hh hs hinv
      exact ih (genStep m rng s) hstep.1 (by omega)

/-! ## Final state: every cell visited, final counts -/

theorem all_visited_of_done (m : Maze) (s : GenState)
    (hw : 1 ≤ m.width) (hh : 1 ≤ m.height)
    (hinv : GenInv m s) (hstk : s.stack = []) :
    ∀ c ∈ cellFinset m.width m.height, visAt m.width s.visited c = true := by
  have key : ∀ n : ℕ, ∀ c ∈ cellFinset m.width m.height, (c.1 + c.2).toNat = n →
      visAt m.width s.visited c = true := by
    intro n
    induction n using Nat.strong_induction_on with
    | _ n ih =>
      intro c hc hn
      have hbounds := mem_cellFinset.mp hc
      by_cases hx : 0 < c.1
      · have hc' : ((c.1 - 1, c.2) : ℤ × ℤ) ∈ cellFinset m.width m.height := by
          rw [mem_cellFinset]
          dsimp only
          omega
        have hvis' : visAt m.width s.visited (c.1 - 1, c.2) = true :=
          ih ((c.1 - 1 + c.2).toNat) (by omega) _ hc' (by dsimp only)
        have hpp := hinv.popped (c.1 - 1, c.2) hc' hvis'
          (by rw [hstk]; exact List.not_mem_nil _) MAZE_EAST (by decide)
        have hceq : ((((c.1 - 1, c.2) : ℤ × ℤ).1 + (dirOffset MAZE_EAST).1,
            ((c.1 - 1, c.2) : ℤ × ℤ).2 + (dirOffset MAZE_EAST).2) : ℤ × ℤ) = c := by
          have hdE : dirOffset MAZE_EAST = ((1 : ℤ), (0 : ℤ)) := by decide
          rw [hdE]
          exact Prod.ext (by dsimp only <;> omega) (by dsimp only <;> omega)
        rw [hceq] at hpp
        exact hpp hc
      · by_cases hy : 0 < c.2
        · have hc' : ((c.1, c.2 - 1) : ℤ × ℤ) ∈ cellFinset m.width m.height := by
            rw [mem_cellFinset]
            dsimp only
            omega
          have hvis' : visAt m.width s.visited (c.1, c.2 - 1) = true :=
            ih ((c.1 + (c.2 - 1)).toNat) (by omega) _ hc' (by dsimp only)
          have hpp := hinv.popped (c.1, c.2 - 1) hc' hvis'
            (by rw [hstk]; exact List.not_mem_nil _) MAZE_SOUTH (by decide)
          have hceq : ((((c.1, c.2 - 1) : ℤ × ℤ).1 + (dirOffset MAZE_SOUTH).1,
              ((c.1, c.2 - 1) : ℤ × ℤ).2 + (dirOffset MAZE_SOUTH).2) : ℤ × ℤ) = c := by
            have hdS : dirOffset MAZE_SOUTH = ((0 : ℤ), (1 : ℤ)) := by decide
            rw [hdS]
            exact Prod.ext (by dsimp only <;> omega) (by dsimp only <;> omega)
          rw [hceq] at hpp
          exact hpp hc
        · have hc00 : c = ((0, 0) : ℤ × ℤ) := Prod.ext (by omega) (by omega)
          rw [hc00]
          exact hinv.originVis
  intro c hc
  exact key ((c.1 + c.2).toNat) c hc rfl

theorem getD_replicate_self {α : Type} (n i : ℕ) (a : α) :
    (List.replicate n a).getD i a = a := by
  rw [List.getD_eq_getElem?_getD, List.getElem?_replicate]
  split_ifs <;> rfl

/-! ## The invariant holds at loop entry -/

theorem genInv_init (m : Maze)
    (hw : 1 ≤ m.width) (hh : 1 ≤ m.height)
    (hcells : m.cells = List.replicate (m.width * m.height).toNat MAZE_ALL) :
    GenInv m
      { cells := m.cells
        visited := (List.replicate (m.width * m.height).toNat false).set
          (CellIndex m 0 0).toNat true
        stack := [(0, 0)]
        k := 0 } := by
  have h00 : ((0, 0) : ℤ × ℤ) ∈ cellFinset m.width m.height := by
    rw [mem_cellFinset]
    dsimp only
    omega
  have hidx0 : idxOf m.width ((0, 0) : ℤ × ℤ) = 0 := by
    unfold idxOf
    dsimp only
    simp
  have hCI : (CellIndex m 0 0).toNat = idxOf m.width ((0, 0) : ℤ × ℤ) :=
    CellIndex_toNat_of_mem h00
  have hN : 1 ≤ (m.width * m.height).toNat := by
    have h1 : (1 : ℤ) * 1 ≤ m.width * m.height := mul_le_mul hw hh (by norm_num) (by omega)
    omega
  have hvisAt : ∀ c ∈ cellFinset m.width m.height,
      visAt m.width ((List.replicate (m.width * m.height).toNat false).set
        (CellIndex m 0 0).toNat true) c = (if c = ((0, 0) : ℤ × ℤ) then true else false) := by
    intro c hc
    rw [hCI, hidx0]
    unfold visAt
    by_cases hc0 : c = ((0, 0) : ℤ × ℤ)
    · rw [if_pos hc0, hc0, hidx0]
      exact getD_set_self _ 0 true false (by simp; omega)
    · rw [if_neg hc0, getD_set_ne]
      · exact getD_replicate_self _ _ _
      · intro heq
        refine hc0 (idxOf_inj hc h00 ?_)
        rw [hidx0, ← heq]
  have hmask : ∀ c ∈ cellFinset m.width m.height, maskAt m.width m.cells c = 15 := by
    intro c hc
    unfold maskAt
    rw [hcells]
    exact getD_replicate _ _ _ _ (idxOf_lt hc)
  have hwall : ∀ c ∈ cellFinset m.width m.height,
      ∀ dd ∈ [MAZE_NORTH, MAZE_EAST, MAZE_SOUTH, MAZE_WEST],
      wallAt m.width m.cells c dd = true := by
    intro c hc dd hdd
    unfold wallAt
    rw [hmask c hc]
    simp [full_mask_wall dd hdd]
  refine ⟨?_, ?_, ?_, ?_, ?_, ?_, ?_, ?_, ?_, ?_, ?_⟩
  · rw [hcells]
    simp
  · simp
  · intro v hv
    rw [hcells] at hv
    rw [List.eq_of_mem_replicate hv]
    decide
  · intro c hcmem
    rw [List.mem_singleton] at hcmem
    rw [hcmem]
    exact h00
  · intro c hcmem
    rw [List.mem_singleton] at hcmem
    rw [hcmem, hvisAt (0, 0) h00, if_pos rfl]
  · rw [hvisAt (0, 0) h00, if_pos rfl]
  · intro c hc dd hdd hnbr
    rw [hwall c hc dd hdd, hwall _ hnbr (oppositeDir dd) (oppositeDir_mem dd hdd)]
  · intro c hc hcf
    exact hmask c hc
  · have hopen : openEdgeCount m.width m.height m.cells = 0 := by
      unfold openEdgeCount
      rw [Finset.filter_eq_empty_iff.mpr, Finset.filter_eq_empty_iff.mpr]
      · simp
      · intro e he
        rw [hwall e (mem_vEdgeSet he).1 MAZE_SOUTH east_south_mem.2]
        simp
      · intro e he
        rw [hwall e (mem_hEdgeSet he).1 MAZE_EAST east_south_mem.1]
        simp
    have hviscnt : visCount m.width m.height
        ((List.replicate (m.width * m.height).toNat false).set
          (CellIndex m 0 0).toNat true) = 1 := by
      unfold visCount
      have hfe : (cellFinset m.width m.height).filter
          (fun c => visAt m.width ((List.replicate (m.width * m.height).toNat false).set
            (CellIndex m 0 0).toNat true) c = true) = {((0, 0) : ℤ × ℤ)} := by
        ext c
        simp only [Finset.mem_filter, Finset.mem_singleton]
        constructor
        · rintro ⟨hc, hv⟩
          rw [hvisAt c hc] at hv
          by_cases hc0 : c = ((0, 0) : ℤ × ℤ)
          · exact hc0
          · rw [if_neg hc0] at hv
            exact Bool.noConfusion hv
        · rintro rfl
          exact ⟨h00, by rw [hvisAt (0, 0) h00, if_pos rfl]⟩
      rw [hfe]
      rfl
    rw [hopen, hviscnt]
  · intro c hc hcv
    rw [hvisAt c hc] at hcv
    by_cases hc0 : c = ((0, 0) : ℤ × ℤ)
    · rw [hc0]
      exact Relation.ReflTransGen.refl
    · rw [if_neg hc0] at hcv
      exact Bool.noConfusion hcv
  · intro c hc hcv hcstk d' hd' hnbr
    rw [hvisAt c hc] at hcv
    by_cases hc0 : c = ((0, 0) : ℤ × ℤ)
    · exact absurd (by rw [hc0]; exact List.mem_singleton_self _) hcstk
    · rw [if_neg hc0] at hcv
      exact Bool.noConfusion hcv

theorem toNat_mul_nonneg {a b : ℤ} (ha : 0 ≤ a) (hb : 0 ≤ b) :
    (a * b).toNat = a.toNat * b.toNat := by
  lift a to ℕ using ha
  lift b to ℕ using hb
  rw [← Int.natCast_mul, Int.toNat_natCast, Int.toNat_natCast, Int.toNat_natCast]

/-! ## Full specification of Maze_Generate on an all-walls grid -/

theorem generate_full_spec (m : Maze) (rng : ℕ → ℕ)
    (hw : 1 ≤ m.width) (hh : 1 ≤ m.height)
    (hcells : m.cells = List.replicate (m.width * m.height).toNat MAZE_ALL) :
    openEdgeCount m.width m.height (Maze_Generate rng m).cells =
        m.width.toNat * m.height.toNat - 1 ∧
    (∀ c ∈ cellFinset m.width m.height,
      ReachIn m.width m.height (Maze_Generate rng m).cells (0, 0) c) ∧
    (∀ c ∈ cellFinset m.width m.height,
      ∀ dd ∈ [MAZE_NORTH, MAZE_EAST, MAZE_SOUTH, MAZE_WEST],
      (c.1 + (dirOffset dd).1, c.2 + (dirOffset dd).2) ∈ cellFinset m.width m.height →
      wallAt m.width (Maze_Generate rng m).cells c dd =
        wallAt m.width (Maze_Generate rng m).cells
          (c.1 + (dirOffset dd).1, c.2 + (dirOffset dd).2) (oppositeDir dd)) := by
  have hinit := genInv_init m hw hh hcells
  have hcard := cellFinset_card m.width m.height
  have hNeq : (m.width * m.height).toNat = m.width.toNat * m.height.toNat :=
    toNat_mul_nonneg (by omega) (by omega)
  have h00 : ((0, 0) : ℤ × ℤ) ∈ cellFinset m.width m.height := by
    rw [mem_cellFinset]
    dsimp only
    omega
  have horig := hinit.originVis
  have hvis1 : 1 ≤ visCount m.width m.height
      ((List.replicate (m.width * m.height).toNat false).set (CellIndex m 0 0).toNat true) := by
    unfold visCount
    exact Finset.card_pos.mpr ⟨(0, 0), Finset.mem_filter.mpr ⟨h00, horig⟩⟩
  have hsum := unvis_add_vis m.width m.height
    ((List.replicate (m.width * m.height).toNat false).set (CellIndex m 0 0).toNat true)
  have hmeas : 2 * unvisCount m.width m.height
      ((List.replicate (m.width * m.height).toNat false).set (CellIndex m 0 0).toNat true) +
      ([((0, 0) : ℤ × ℤ)]).length ≤ 2 * (m.width * m.height).toNat := by
    simp only [List.length_singleton]
    omega
  have hloop := genLoop_spec m rng hw hh (2 * (m.width * m.height).toNat)
    { cells := m.cells
      visited := (List.replicate (m.width * m.height).toNat false).set
        (CellIndex m 0 0).toNat true
      stack := [(0, 0)]
      k := 0 } hinit hmeas
  have hgen : Maze_Generate rng m =
      { m with cells := (genLoop m rng (2 * (m.width * m.height).toNat)
          { cells := m.cells
            visited := (List.replicate (m.width * m.height).toNat false).set
              (CellIndex m 0 0).toNat true
            stack := [(0, 0)]
            k := 0 }).cells } := rfl
  have hfin := hloop.1
  have hstk := hloop.2
  have hall := all_visited_of_done m _ hw hh hfin hstk
  have hviseq : visCount m.width m.height (genLoop m rng (2 * (m.width * m.height).toNat)
      { cells := m.cells
        visited := (List.replicate (m.width * m.height).toNat false).set
          (CellIndex m 0 0).toNat true
        stack := [(0, 0)]
        k := 0 }).visited = (cellFinset m.width m.height).card := by
    unfold visCount
    rw [Finset.filter_eq_self.mpr hall]
  have hcount := hfin.count
  refine ⟨?_, ?_, ?_⟩
  · rw [hgen]
    dsimp only
    rw [hviseq, hcard] at hcount
    have hN1 : 1 ≤ m.width.toNat * m.height.toNat := by
      rw [← hNeq]
      have h1 : (1 : ℤ) * 1 ≤ m.width * m.height := mul_le_mul hw hh (by norm_num) (by omega)
      omega
    omega
  · intro c hc
    rw [hgen]
    exact hfin.reach c hc (hall c hc)
  · intro c hc dd hdd hnbr
    rw [hgen]
    exact hfin.sym c hc dd hdd hnbr

/-! ## Transfer between raw-buffer properties and `Maze_HasWall`-level queries -/

theorem openPassageCount_eq (m : Maze) :
    openPassageCount m = openEdgeCount m.width m.height m.cells := by
  unfold openPassageCount openEdgeCount
  have h1 : (hEdgeSet m.width m.height).filter
        (fun c => Maze_HasWall m c.1 c.2 MAZE_EAST = false) =
      (hEdgeSet m.width m.height).filter
        (fun c => wallAt m.width m.cells c MAZE_EAST = false) := by
    apply Finset.filter_congr
    intro e he
    rw [Maze_HasWall_of_mem (mem_hEdgeSet he).1]
  have h2 : (vEdgeSet m.width m.height).filter
        (fun c => Maze_HasWall m c.1 c.2 MAZE_SOUTH = false) =
      (vEdgeSet m.width m.height).filter
        (fun c => wallAt m.width m.cells c MAZE_SOUTH = false) := by
    apply Finset.filter_congr
    intro e he
    rw [Maze_HasWall_of_mem (mem_vEdgeSet he).1]
  rw [h1, h2]

theorem openPassage_iff (m : Maze) (c d : ℤ × ℤ) :
    openPassage m c d ↔ adjOpen m.width m.height m.cells c d := by
  unfold openPassage adjOpen
  constructor
  · rintro ⟨hc, hd, hcase⟩
    refine ⟨hc, hd, ?_⟩
    rcases hcase with ⟨h1, h2⟩ | ⟨h1, h2⟩ | ⟨h1, h2⟩ | ⟨h1, h2⟩
    · exact Or.inl ⟨h1, by rw [← Maze_HasWall_of_mem hc]; exact h2⟩
    · exact Or.inr (Or.inl ⟨h1, by rw [← Maze_HasWall_of_mem hc]; exact h2⟩)
    · exact Or.inr (Or.inr (Or.inl ⟨h1, by rw [← Maze_HasWall_of_mem hd]; exact h2⟩))
    · exact Or.inr (Or.inr (Or.inr ⟨h1, by rw [← Maze_HasWall_of_mem hd]; exact h2⟩))
  · rintro ⟨hc, hd, hcase⟩
    refine ⟨hc, hd, ?_⟩
    rcases hcase with ⟨h1, h2⟩ | ⟨h1, h2⟩ | ⟨h1, h2⟩ | ⟨h1, h2⟩
    · exact Or.inl ⟨h1, by rw [Maze_HasWall_of_mem hc]; exact h2⟩
    · exact Or.inr (Or.inl ⟨h1, by rw [Maze_HasWall_of_mem hc]; exact h2⟩)
    · exact Or.inr (Or.inr (Or.inl ⟨h1, by rw [Maze_HasWall_of_mem hd]; exact h2⟩))
    · exact Or.inr (Or.inr (Or.inr ⟨h1, by rw [Maze_HasWall_of_mem hd]; exact h2⟩))

theorem hasWall_of_allwalls (m : Maze)
    (hcells : m.cells = List.replicate (m.width * m.height).toNat MAZE_ALL)
    {c : ℤ × ℤ} (hc : c ∈ cellFinset m.width m.height)
    (d : ℕ) (hd : d ∈ [MAZE_NORTH, MAZE_EAST, MAZE_SOUTH, MAZE_WEST]) :
    Maze_HasWall m c.1 c.2 d = true := by
  rw [Maze_HasWall_of_mem hc]
  unfold wallAt
  have hm : maskAt m.width m.cells c = 15 := by
    unfold maskAt
    rw [hcells]
    exact getD_replicate _ _ _ _ (idxOf_lt hc)
  rw [hm]
  simp [full_mask_wall d hd]

/-- C1: Every maze obtained from `Maze_Create` and then `Maze_Generate` is a
perfect maze: the no-wall adjacency graph on the `width*height` cells has
exactly `width*height - 1` open passages (each shared wall counted once), and
every in-grid cell is reachable from every other in-grid cell through open
passages — a spanning tree. -/
theorem maze_generate_perfect (w h : ℤ) (cs : ℚ) (rng : ℕ → ℕ) (m0 : Maze)
    (hc : Maze_Create w h cs = some m0) :
    openPassageCount (Maze_Generate rng m0) =
        m0.width.toNat * m0.height.toNat - 1 ∧
    ∀ c d : ℤ × ℤ, c ∈ cellFinset m0.width m0.height →
      d ∈ cellFinset m0.width m0.height →
      ReachMaze (Maze_Generate rng m0) c d := by
  unfold Maze_Create at hc
  split_ifs at hc with hcond
  rw [Option.some_inj] at hc
  subst hc
  push_neg at hcond
  obtain ⟨hw, hh, hcs⟩ := hcond
  have hspec := generate_full_spec (Maze.mk w h (List.replicate (w * h).toNat MAZE_ALL)
    cs (0, 0) (w - 1, h - 1)) rng hw hh rfl
  constructor
  · rw [openPassageCount_eq]
    exact hspec.1
  · intro c d hcm hdm
    have h1 := hspec.2.1 c hcm
    have h2 := hspec.2.1 d hdm
    have hsymm : Symmetric (adjOpen w h
        (Maze_Generate rng (Maze.mk w h (List.replicate (w * h).toNat MAZE_ALL)
          cs (0, 0) (w - 1, h - 1))).cells) :=
      fun a b hab => adjOpen_symm _ _ _ a b hab
    have h1' := (Relation.ReflTransGen.symmetric hsymm) h1
    have h3 := Relation.ReflTransGen.trans h1' h2
    exact Relation.ReflTransGen.mono
      (fun a b hab => (openPassage_iff _ a b).mpr hab) h3

/-- C1 witness at a concrete 2×2 maze. -/
theorem maze_generate_perfect_witness :
    Maze_Create 2 2 1 = some (Maze.mk 2 2 (List.replicate 4 MAZE_ALL) 1 (0, 0) (1, 1)) ∧
    (openPassageCount (Maze_Generate (fun _ : ℕ => 0)
        (Maze.mk 2 2 (List.replicate 4 MAZE_ALL) 1 (0, 0) (1, 1))) =
      (Maze.mk 2 2 (List.replicate 4 MAZE_ALL) 1 (0, 0) (1, 1)).width.toNat *
        (Maze.mk 2 2 (List.replicate 4 MAZE_ALL) 1 (0, 0) (1, 1)).height.toNat - 1 ∧
     ∀ c d : ℤ × ℤ, c ∈ cellFinset 2 2 → d ∈ cellFinset 2 2 →
       ReachMaze (Maze_Generate (fun _ : ℕ => 0)
         (Maze.mk 2 2 (List.replicate 4 MAZE_ALL) 1 (0, 0) (1, 1))) c d) := by
  have hm : Maze_Create 2 2 1 =
      some (Maze.mk 2 2 (List.replicate 4 MAZE_ALL) 1 (0, 0) (1, 1)) := by
    norm_num [Maze_Create]
    rfl
  exact ⟨hm, maze_generate_perfect 2 2 1 (fun _ : ℕ => 0) _ hm⟩

/-- C10: Wall-mask symmetry: on any maze produced by `Maze_Create`, and again
after `Maze_Generate`, adjacent cells agree about their shared wall — the East
bit of `(x, y)` matches the West bit of `(x+1, y)` and the South bit of
`(x, y)` matches the North bit of `(x, y+1)`. -/
theorem wall_mask_symmetry (w h : ℤ) (cs : ℚ) (rng : ℕ → ℕ) (m0 : Maze)
    (hc : Maze_Create w h cs = some m0) :
    wallMaskSym m0 ∧ wallMaskSym (Maze_Generate rng m0) := by
  unfold Maze_Create at hc
  split_ifs at hc with hcond
  rw [Option.some_inj] at hc
  subst hc
  push_neg at hcond
  obtain ⟨hw, hh, hcs⟩ := hcond
  have hspec := generate_full_spec (Maze.mk w h (List.replicate (w * h).toNat MAZE_ALL)
    cs (0, 0) (w - 1, h - 1)) rng hw hh rfl
  have hsym := hspec.2.2
  constructor
  · constructor
    · intro x y hx hxw hy hyh
      dsimp only at hxw hyh
      have hcmem : ((x, y) : ℤ × ℤ) ∈ cellFinset w h :=
        mem_cellFinset.mpr (by dsimp only; omega)
      have hnmem : ((x + 1, y) : ℤ × ℤ) ∈ cellFinset w h :=
        mem_cellFinset.mpr (by dsimp only; omega)
      have g1 : Maze_HasWall (Maze.mk w h (List.replicate (w * h).toNat MAZE_ALL)
          cs (0, 0) (w - 1, h - 1)) x y MAZE_EAST = true :=
        hasWall_of_allwalls (Maze.mk w h (List.replicate (w * h).toNat MAZE_ALL)
          cs (0, 0) (w - 1, h - 1)) rfl hcmem MAZE_EAST (by decide)
      have g2 : Maze_HasWall (Maze.mk w h (List.replicate (w * h).toNat MAZE_ALL)
          cs (0, 0) (w - 1, h - 1)) (x + 1) y MAZE_WEST = true :=
        hasWall_of_allwalls (Maze.mk w h (List.replicate (w * h).toNat MAZE_ALL)
          cs (0, 0) (w - 1, h - 1)) rfl hnmem MAZE_WEST (by decide)
      rw [g1, g2]
    · intro x y hx hxw hy hyh
      dsimp only at hxw hyh
      have hcmem : ((x, y) : ℤ × ℤ) ∈ cellFinset w h :=
        mem_cellFinset.mpr (by dsimp only; omega)
      have hnmem : ((x, y + 1) : ℤ × ℤ) ∈ cellFinset w h :=
        mem_cellFinset.mpr (by dsimp only; omega)
      have g1 : Maze_HasWall (Maze.mk w h (List.replicate (w * h).toNat MAZE_ALL)
          cs (0, 0) (w - 1, h - 1)) x y MAZE_SOUTH = true :=
        hasWall_of_allwalls (Maze.mk w h (List.replicate (w * h).toNat MAZE_ALL)
          cs (0, 0) (w - 1, h - 1)) rfl hcmem MAZE_SOUTH (by decide)
      have g2 : Maze_HasWall (Maze.mk w h (List.replicate (w * h).toNat MAZE_ALL)
          cs (0, 0) (w - 1, h - 1)) x (y + 1) MAZE_NORTH = true :=
        hasWall_of_allwalls (Maze.mk w h (List.replicate (w * h).toNat MAZE_ALL)
          cs (0, 0) (w - 1, h - 1)) rfl hnmem MAZE_NORTH (by decide)
      rw [g1, g2]
  · constructor
    · intro x y hx hxw hy hyh
      have hxw2 : x + 1 < w := hxw
      have hyh2 : y < h := hyh
      have hcmem : ((x, y) : ℤ × ℤ) ∈ cellFinset w h :=
        mem_cellFinset.mpr (by dsimp only; omega)
      have hnmem : ((x + 1, y) : ℤ × ℤ) ∈ cellFinset w h :=
        mem_cellFinset.mpr (by dsimp only; omega)
      have hceq : ((((x, y) : ℤ × ℤ).1 + (dirOffset MAZE_EAST).1,
          ((x, y) : ℤ × ℤ).2 + (dirOffset MAZE_EAST).2) : ℤ × ℤ) = ((x + 1, y) : ℤ × ℤ) := by
        have hdE : dirOffset MAZE_EAST = ((1 : ℤ), (0 : ℤ)) := by decide
        rw [hdE]
        exact Prod.ext (by dsimp only <;> omega) (by dsimp only <;> omega)
      have hs := hsym (x, y) hcmem MAZE_EAST (by decide) (by rw [hceq]; exact hnmem)
      rw [hceq] at hs
      have hopp : oppositeDir MAZE_EAST = MAZE_WEST := by decide
      rw [hopp] at hs
      have g1 : Maze_HasWall (Maze_Generate rng (Maze.mk w h
          (List.replicate (w * h).toNat MAZE_ALL) cs (0, 0) (w - 1, h - 1)))
          x y MAZE_EAST =
          wallAt w (Maze_Generate rng (Maze.mk w h
            (List.replicate (w * h).toNat MAZE_ALL) cs (0, 0) (w - 1, h - 1))).cells
            (x, y) MAZE_EAST :=
        @Maze_HasWall_of_mem (Maze_Generate rng (Maze.mk w h
          (List.replicate (w * h).toNat MAZE_ALL) cs (0, 0) (w - 1, h - 1))) (x, y) hcmem MAZE_EAST
      have g2 : Maze_HasWall (Maze_Generate rng (Maze.mk w h
          (List.replicate (w * h).toNat MAZE_ALL) cs (0, 0) (w - 1, h - 1)))
          (x + 1) y MAZE_WEST =
          wallAt w (Maze_Generate rng (Maze.mk w h
            (List.replicate (w * h).toNat MAZE_ALL) cs (0, 0) (w - 1, h - 1))).cells
            (x + 1, y) MAZE_WEST :=
        @Maze_HasWall_of_mem (Maze_Generate rng (Maze.mk w h
          (List.replicate (w * h).toNat MAZE_ALL) cs (0, 0) (w - 1, h - 1))) (x + 1, y) hnmem MAZE_WEST
      rw [g1, g2]
      exact hs
    · intro x y hx hxw hy hyh
      have hxw2 : x < w := hxw
      have hyh2 : y + 1 < h := hyh
      have hcmem : ((x, y) : ℤ × ℤ) ∈ cellFinset w h :=
        mem_cellFinset.mpr (by dsimp only; omega)
      have hnmem : ((x, y + 1) : ℤ × ℤ) ∈ cellFinset w h :=
        mem_cellFinset.mpr (by dsimp only; omega)
      have hceq : ((((x, y) : ℤ × ℤ).1 + (dirOffset MAZE_SOUTH).1,
          ((x, y) : ℤ × ℤ).2 + (dirOffset MAZE_SOUTH).2) : ℤ × ℤ) = ((x, y + 1) : ℤ × ℤ) := by
        have hdS : dirOffset MAZE_SOUTH = ((0 : ℤ), (1 : ℤ)) := by decide
        rw [hdS]
        exact Prod.ext (by dsimp only <;> omega) (by dsimp only <;> omega)
      have hs := hsym (x, y) hcmem MAZE_SOUTH (by decide) (by rw [hceq]; exact hnmem)
      rw [hceq] at hs
      have hopp : oppositeDir MAZE_SOUTH = MAZE_NORTH := by decide
      rw [hopp] at hs
      have g1 : Maze_HasWall (Maze_Generate rng (Maze.mk w h
          (List.replicate (w * h).toNat MAZE_ALL) cs (0, 0) (w - 1, h - 1)))
          x y MAZE_SOUTH =
          wallAt w (Maze_Generate rng (Maze.mk w h
            (List.replicate (w * h).toNat MAZE_ALL) cs (0, 0) (w - 1, h - 1))).cells
            (x, y) MAZE_SOUTH :=
        @Maze_HasWall_of_mem (Maze_Generate rng (Maze.mk w h
          (List.replicate (w * h).toNat MAZE_ALL) cs (0, 0) (w - 1, h - 1))) (x, y) hcmem MAZE_SOUTH
      have g2 : Maze_HasWall (Maze_Generate rng (Maze.mk w h
          (List.replicate (w * h).toNat MAZE_ALL) cs (0, 0) (w - 1, h - 1)))
          x (y + 1) MAZE_NORTH =
          wallAt w (Maze_Generate rng (Maze.mk w h
            (List.replicate (w * h).toNat MAZE_ALL) cs (0, 0) (w - 1, h - 1))).cells
            (x, y + 1) MAZE_NORTH :=
        @Maze_HasWall_of_mem (Maze_Generate rng (Maze.mk w h
          (List.replicate (w * h).toNat MAZE_ALL) cs (0, 0) (w - 1, h - 1))) (x, y + 1) hnmem MAZE_NORTH
      rw [g1, g2]
      exact hs

/-- C10 witness at a concrete 2×2 maze. -/
theorem wall_mask_symmetry_witness :
    Maze_Create 2 2 1 = some (Maze.mk 2 2 (List.replicate 4 MAZE_ALL) 1 (0, 0) (1, 1)) ∧
    (wallMaskSym (Maze.mk 2 2 (List.replicate 4 MAZE_ALL) 1 (0, 0) (1, 1)) ∧
     wallMaskSym (Maze_Generate (fun _ : ℕ => 0)
       (Maze.mk 2 2 (List.replicate 4 MAZE_ALL) 1 (0, 0) (1, 1)))) := by
  have hm : Maze_Create 2 2 1 =
      some (Maze.mk 2 2 (List.replicate 4 MAZE_ALL) 1 (0, 0) (1, 1)) := by
    norm_num [Maze_Create]
    rfl
  exact ⟨hm, wall_mask_symmetry 2 2 1 (fun _ : ℕ => 0) _ hm⟩

end MazeGame
